import Mathlib

/-!
Verification of the LAZARUS_AGENT orchestration core (`backend/lazarus_agent.py`).

The Python source is shallowly embedded: strings are `String` / `List Char`,
Python dicts keyed by path are insertion-ordered association lists, and the
regular expressions used by the source are compiled by hand into deterministic
character-level scanners (each regex in the source uses only greedy/lazy
quantifiers whose backtracking is provably deterministic, as noted at each
scanner).  Loops whose termination argument is "the string shrinks" are given
explicit fuel equal to the input length, which is always sufficient because
every iteration consumes at least one character.
-/

namespace Lazarus

/-- Whitespace as recognized by Python `str.strip` / regex `\s` on ASCII text. -/
def pyIsSpace (c : Char) : Bool :=
  c = ' ' || c = '\t' || c = '\n' || c = '\r' || c = '\x0b' || c = '\x0c'

/-- The single-quote character (written via its code point). -/
def squote : Char := Char.ofNat 39

/-- The backtick character (written via its code point). -/
def btick : Char := Char.ofNat 96

/-- Lowercase every character (Python `str.lower` on ASCII text). -/
def lowerL (l : List Char) : List Char := l.map Char.toLower

/-- Python `str.strip()` on a character list. -/
def pyStripL (l : List Char) : List Char :=
  ((l.dropWhile pyIsSpace).reverse.dropWhile pyIsSpace).reverse

/-- Python `str.rstrip()` on a character list. -/
def pyRstripL (l : List Char) : List Char :=
  (l.reverse.dropWhile pyIsSpace).reverse

/-- Python `str.lstrip()` on a character list. -/
def pyLstripL (l : List Char) : List Char := l.dropWhile pyIsSpace

/-- Strip the characters of `cs` from both ends (Python `str.strip(chars)`). -/
def pyStripChars (cs : List Char) (l : List Char) : List Char :=
  ((l.dropWhile (cs.contains ·)).reverse.dropWhile (cs.contains ·)).reverse

/-- Strip a single character from the right end (Python `str.rstrip(c)`). -/
def pyRstripChar (c : Char) (l : List Char) : List Char :=
  (l.reverse.dropWhile (· = c)).reverse

/-- Concatenation of the images of a function over a list. -/
def catMap (f : α → List β) : List α → List β
  | [] => []
  | a :: t => f a ++ catMap f t

theorem mem_catMap {f : α → List β} {l : List α} {b : β} :
    b ∈ catMap f l ↔ ∃ a ∈ l, b ∈ f a := by
  induction l with
  | nil => simp [catMap]
  | cons x t ih => simp [catMap, ih]

/-- Index of the first occurrence of `pat` in `l` (Python `str.find` when the
pattern occurs; `none` otherwise). -/
def findLit (pat : List Char) : List Char → Option Nat
  | [] => if pat = [] then some 0 else none
  | c :: t =>
      if pat.isPrefixOf (c :: t) then some 0
      else (findLit pat t).map (· + 1)

/-- Index of the last occurrence of `pat` in `l`. -/
def findLast (pat : List Char) : List Char → Option Nat
  | [] => if pat = [] then some 0 else none
  | c :: t =>
      match findLast pat t with
      | some j => some (j + 1)
      | none => if pat.isPrefixOf (c :: t) then some 0 else none

/-- Substring containment on character lists (Python `in` on strings). -/
def containsL (hay pat : List Char) : Bool := (findLit pat hay).isSome

/-- Substring containment on strings (Python `needle in hay`). -/
def containsS (hay needle : String) : Bool := containsL hay.data needle.data

/-- Python `str.endswith` (kernel-reducible, via character lists). -/
def endsWithS (s suffix : String) : Bool := suffix.data.isSuffixOf s.data

/-- Python `str.startswith` (kernel-reducible, via character lists). -/
def startsWithS (s pre : String) : Bool := pre.data.isPrefixOf s.data

/-- Drop a literal prefix, or fail (one literal piece of a regex). -/
def dropLit (pat l : List Char) : Option (List Char) :=
  if pat.isPrefixOf l then some (l.drop pat.length) else none

/-! ## `sanitize_path` (lazarus_agent.py lines 55-100)

The source replaces each of 19 shell metacharacters with the empty string and
the space with an underscore, one `str.replace` pass per character, then
repeatedly collapses `"__"` to `"_"` and `"//"` to `"/"` until neither occurs.
-/

/-- One Python `str.replace(tgt, rep)` pass for a single-character target:
for a one-character pattern, Python's left-to-right non-overlapping scan is
exactly a character-wise substitution. -/
def pyReplaceChar (tgt : Char) (rep : List Char) : List Char → List Char
  | [] => []
  | c :: t => (if c = tgt then rep else [c]) ++ pyReplaceChar tgt rep t

/-- The replacement table of `sanitize_path`, in source (dict insertion) order. -/
def sanitizeReplacements : List (Char × List Char) :=
  [ ('(', []), (')', []), ('[', []), (']', []),
    ('\x7b', []), ('\x7d', []),
    ('@', []), ('#', []), ('$', []), ('&', []), ('*', []), ('?', []),
    ('!', []), ('|', []), (';', []), ('<', []), ('>', []),
    (btick, []), (squote, []), ('"', []), (' ', ['_']) ]

/-- Apply a list of single-character replacement passes in order. -/
def runReplacements (rs : List (Char × List Char)) (s : List Char) : List Char :=
  rs.foldl (fun acc pr => pyReplaceChar pr.1 pr.2 acc) s

/-- Python `result.replace(cc, c)` for the two-character pattern `cc` (the
left-to-right non-overlapping scan of `str.replace`). -/
def replaceDup (c : Char) : List Char → List Char
  | [] => []
  | [a] => [a]
  | a :: b :: t =>
      if a = c ∧ b = c then c :: replaceDup c t
      else a :: replaceDup c (b :: t)

/-- Python `cc in result` for the two-character pattern `cc`. -/
def hasDup (c : Char) : List Char → Bool
  | a :: b :: t => (a = c && b = c) || hasDup c (b :: t)
  | _ => false

/-- The source's `while cc in result: result = result.replace(cc, c)` loop,
with explicit fuel; each iteration strictly shortens the string, so fuel equal
to the string length is always sufficient. -/
def collapseGo (c : Char) : Nat → List Char → List Char
  | 0, s => s
  | fuel + 1, s => if hasDup c s then collapseGo c fuel (replaceDup c s) else s

/-- The collapse-until-fixpoint loop of `sanitize_path`. -/
def collapseDup (c : Char) (s : List Char) : List Char := collapseGo c s.length s

/-- `sanitize_path` on character lists. -/
def sanitizePathL (s : List Char) : List Char :=
  if s = [] then s
  else collapseDup '/' (collapseDup '_' (runReplacements sanitizeReplacements s))

/-- `sanitize_path` (lazarus_agent.py line 55). -/
def sanitize_path (p : String) : String := String.mk (sanitizePathL p.data)

/-! Lemmas for idempotence of `sanitize_path`. -/

theorem mem_pyReplaceChar {x tgt : Char} {rep s : List Char} :
    x ∈ pyReplaceChar tgt rep s → (x ∈ s ∧ x ≠ tgt) ∨ x ∈ rep := by
  induction s with
  | nil => simp [pyReplaceChar]
  | cons c t ih =>
      simp only [pyReplaceChar, List.mem_append]
      rintro (h | h)
      · by_cases hc : c = tgt
        · rw [if_pos hc] at h; right; exact h
        · rw [if_neg hc] at h
          simp only [List.mem_singleton] at h
          subst h
          exact Or.inl ⟨List.mem_cons_self .., hc⟩
      · rcases ih h with ⟨hs, hne⟩ | hr
        · exact Or.inl ⟨List.mem_cons_of_mem _ hs, hne⟩
        · exact Or.inr hr

theorem pyReplaceChar_id {tgt : Char} {rep s : List Char} (h : tgt ∉ s) :
    pyReplaceChar tgt rep s = s := by
  induction s with
  | nil => rfl
  | cons c t ih =>
      have hc : c ≠ tgt := fun hE => h (hE ▸ List.mem_cons_self ..)
      have ht : pyReplaceChar tgt rep t = t :=
        ih (fun hm => h (List.mem_cons_of_mem _ hm))
      simp [pyReplaceChar, if_neg hc, ht]

theorem not_mem_pyReplaceChar {x tgt : Char} {rep s : List Char}
    (hx : x ∉ s) (hr : x ∉ rep) : x ∉ pyReplaceChar tgt rep s := by
  intro h
  rcases mem_pyReplaceChar h with ⟨hs, _⟩ | hrep
  · exact hx hs
  · exact hr hrep

theorem not_mem_runReplacements_of_not_mem {x : Char} {rs : List (Char × List Char)}
    {s : List Char} (hx : x ∉ s) (hr : ∀ pr ∈ rs, x ∉ pr.2) :
    x ∉ runReplacements rs s := by
  induction rs generalizing s with
  | nil => simpa [runReplacements]
  | cons pr rt ih =>
      simp only [runReplacements, List.foldl_cons]
      exact ih (not_mem_pyReplaceChar hx (hr pr (List.mem_cons_self ..)))
        (fun q hq => hr q (List.mem_cons_of_mem _ hq))

theorem target_not_mem_runReplacements {t : Char} {rep : List Char}
    {rs : List (Char × List Char)} {s : List Char}
    (hmem : (t, rep) ∈ rs) (hreps : ∀ pr ∈ rs, t ∉ pr.2) :
    t ∉ runReplacements rs s := by
  induction rs generalizing s with
  | nil => cases hmem
  | cons pr rt ih =>
      simp only [runReplacements, List.foldl_cons]
      rcases List.mem_cons.mp hmem with hE | hm
      · have hrep0 : t ∉ pr.2 := hreps pr (List.mem_cons_self ..)
        have h1 : t ∉ pyReplaceChar pr.1 pr.2 s := by
          cases hE
          intro h
          rcases mem_pyReplaceChar h with ⟨_, hne⟩ | hb
          · exact hne rfl
          · exact hrep0 hb
        exact not_mem_runReplacements_of_not_mem h1
          (fun q hq => hreps q (List.mem_cons_of_mem _ hq))
      · exact ih hm (fun q hq => hreps q (List.mem_cons_of_mem _ hq))

theorem runReplacements_id {rs : List (Char × List Char)} {s : List Char}
    (h : ∀ pr ∈ rs, pr.1 ∉ s) : runReplacements rs s = s := by
  induction rs with
  | nil => rfl
  | cons pr rt ih =>
      simp only [runReplacements, List.foldl_cons]
      rw [pyReplaceChar_id (h pr (List.mem_cons_self ..))]
      exact ih (fun q hq => h q (List.mem_cons_of_mem _ hq))

theorem mem_replaceDup (x c : Char) :
    ∀ s : List Char, x ∈ replaceDup c s → x ∈ s
  | [] => by simp [replaceDup]
  | [a] => by simp [replaceDup]
  | a :: b :: t => by
      by_cases h : a = c ∧ b = c
      · simp only [replaceDup, if_pos h, List.mem_cons]
        rintro (hh | hh)
        · exact Or.inl (hh.trans h.1.symm)
        · exact Or.inr (Or.inr (mem_replaceDup x c t hh))
      · simp only [replaceDup, if_neg h, List.mem_cons]
        rintro (hh | hh)
        · exact Or.inl hh
        · have := mem_replaceDup x c (b :: t) hh
          simp only [List.mem_cons] at this
          exact Or.inr this

theorem length_replaceDup_le (c : Char) :
    ∀ s : List Char, (replaceDup c s).length ≤ s.length
  | [] => by simp [replaceDup]
  | [a] => by simp [replaceDup]
  | a :: b :: t => by
      by_cases h : a = c ∧ b = c
      · simp only [replaceDup, if_pos h, List.length_cons]
        have := length_replaceDup_le c t
        omega
      · simp only [replaceDup, if_neg h, List.length_cons]
        have := length_replaceDup_le c (b :: t)
        simp only [List.length_cons] at this
        omega

theorem length_replaceDup_lt (c : Char) :
    ∀ s : List Char, hasDup c s = true → (replaceDup c s).length < s.length
  | [] => by simp [hasDup]
  | [a] => by simp [hasDup]
  | a :: b :: t => by
      intro h
      by_cases hab : a = c ∧ b = c
      · simp only [replaceDup, if_pos hab, List.length_cons]
        have := length_replaceDup_le c t
        omega
      · have hdt : hasDup c (b :: t) = true := by
          simp only [hasDup] at h
          have hfalse : (a = c && b = c) = false := by
            by_cases h1 : a = c <;> by_cases h2 : b = c <;> simp_all
          rwa [hfalse, Bool.false_or] at h
        simp only [replaceDup, if_neg hab, List.length_cons]
        have := length_replaceDup_lt c (b :: t) hdt
        simp only [List.length_cons] at this ⊢
        omega

theorem replaceDup_cons_ex (d x : Char) (l : List Char) :
    ∃ Y, replaceDup d (x :: l) = x :: Y := by
  cases l with
  | nil => exact ⟨[], rfl⟩
  | cons y t =>
      by_cases h : x = d ∧ y = d
      · refine ⟨replaceDup d t, ?_⟩
        obtain ⟨h1, h2⟩ := h; subst h1; subst h2
        simp [replaceDup]
      · exact ⟨replaceDup d (y :: t), by simp [replaceDup, if_neg h]⟩

theorem hasDup_cons_of {c x : Char} {l : List Char} (h : hasDup c l = true) :
    hasDup c (x :: l) = true := by
  cases l with
  | nil => simp [hasDup] at h
  | cons y t => simp [hasDup, h]

theorem hasDup_cons_ne {c a : Char} {l : List Char} (h : a ≠ c) :
    hasDup c (a :: l) = hasDup c l := by
  cases l with
  | nil => simp [hasDup]
  | cons y t => simp [hasDup, h]

theorem hasDup_replaceDup_ne {c d : Char} (hcd : c ≠ d) :
    ∀ s : List Char, hasDup c (replaceDup d s) = true → hasDup c s = true
  | [] => by simp [replaceDup]
  | [a] => by simp [replaceDup, hasDup]
  | a :: b :: t => by
      intro h
      by_cases hab : a = d ∧ b = d
      · simp only [replaceDup, if_pos hab] at h
        rw [hasDup_cons_ne (Ne.symm hcd)] at h
        exact hasDup_cons_of (hasDup_cons_of (hasDup_replaceDup_ne hcd t h))
      · simp only [replaceDup, if_neg hab] at h
        obtain ⟨Y, hY⟩ := replaceDup_cons_ex d b t
        rw [hY] at h
        by_cases hac : a = c
        · subst hac
          by_cases hbc : b = a
          · subst hbc; simp [hasDup]
          · have hba : b ≠ a := hbc
            rw [show hasDup a (a :: b :: Y) = hasDup a (b :: Y) by
                  simp [hasDup, fun hh : b = a => hba hh]] at h
            rw [← hY] at h
            have := hasDup_replaceDup_ne hcd (b :: t) h
            exact hasDup_cons_of this
        · rw [hasDup_cons_ne hac] at h
          rw [← hY] at h
          have := hasDup_replaceDup_ne hcd (b :: t) h
          rw [hasDup_cons_ne hac]
          exact this

theorem collapseGo_not_hasDup {c : Char} :
    ∀ fuel s, s.length ≤ fuel → hasDup c (collapseGo c fuel s) = false := by
  intro fuel
  induction fuel with
  | zero =>
      intro s hs
      have : s = [] := List.length_eq_zero.mp (Nat.le_zero.mp hs)
      subst this
      simp [collapseGo, hasDup]
  | succ n ih =>
      intro s hs
      simp only [collapseGo]
      by_cases h : hasDup c s = true
      · rw [if_pos h]
        exact ih _ (by have := length_replaceDup_lt c s h; omega)
      · rw [if_neg h]
        simpa using h

theorem collapseGo_id {c : Char} {fuel : Nat} {s : List Char}
    (h : hasDup c s = false) : collapseGo c fuel s = s := by
  cases fuel with
  | zero => rfl
  | succ n => simp [collapseGo, h]

theorem mem_collapseGo {x c : Char} :
    ∀ fuel s, x ∈ collapseGo c fuel s → x ∈ s := by
  intro fuel
  induction fuel with
  | zero => intro s; simp [collapseGo]
  | succ n ih =>
      intro s h
      simp only [collapseGo] at h
      by_cases hd : hasDup c s = true
      · rw [if_pos hd] at h
        exact mem_replaceDup _ _ _ (ih _ h)
      · rwa [if_neg hd] at h

theorem hasDup_collapseGo_ne {c d : Char} (hcd : c ≠ d) :
    ∀ fuel s, hasDup c s = false → hasDup c (collapseGo d fuel s) = false := by
  intro fuel
  induction fuel with
  | zero => intro s h; simpa [collapseGo]
  | succ n ih =>
      intro s h
      simp only [collapseGo]
      by_cases hd : hasDup d s = true
      · rw [if_pos hd]
        refine ih _ ?_
        by_cases hr : hasDup c (replaceDup d s) = true
        · exact absurd (hasDup_replaceDup_ne hcd s hr) (by simp [h])
        · simpa using hr
      · rwa [if_neg hd]

theorem not_hasDup_collapseDup (c : Char) (s : List Char) :
    hasDup c (collapseDup c s) = false :=
  collapseGo_not_hasDup _ s (Nat.le_refl _)

theorem mem_collapseDup {x c : Char} {s : List Char}
    (h : x ∈ collapseDup c s) : x ∈ s :=
  mem_collapseGo _ _ h

/-- Every replacement target of `sanitize_path` is absent from its output. -/
theorem sanitize_target_not_mem (t : Char) (rep : List Char) {s : List Char}
    (hmem : (t, rep) ∈ sanitizeReplacements) (hs : s ≠ []) :
    t ∉ sanitizePathL s := by
  have hreps : ∀ pr ∈ sanitizeReplacements, t ∉ pr.2 := by
    have ht : t ≠ '_' := by
      have : ∀ pr ∈ sanitizeReplacements, pr.1 ≠ '_' := by decide
      exact this (t, rep) hmem
    intro pr hpr
    have : pr.2 = [] ∨ pr.2 = ['_'] := by
      revert hpr
      have : ∀ q ∈ sanitizeReplacements, q.2 = [] ∨ q.2 = ['_'] := by decide
      exact this pr
    rcases this with h | h <;> simp [h, ht]
  intro hmem2
  simp only [sanitizePathL, if_neg hs] at hmem2
  exact target_not_mem_runReplacements hmem hreps
    (mem_collapseDup (mem_collapseDup hmem2))

/-- C9 — Path sanitization is idempotent: applying `sanitize_path` twice gives
the same result as applying it once; the first pass already removes every
shell metacharacter and space and collapses every doubled underscore and
doubled slash, so the second pass finds nothing to change. -/
theorem sanitize_path_idempotent (p : String) :
    sanitize_path (sanitize_path p) = sanitize_path p := by
  unfold sanitize_path
  congr 1
  set r := sanitizePathL p.data with hr
  by_cases hempty : r = []
  · simp [sanitizePathL, hempty]
  · by_cases hp : p.data = []
    · exfalso
      apply hempty
      rw [hr]
      simp [sanitizePathL, hp]
    · have hrun : runReplacements sanitizeReplacements r = r := by
        apply runReplacements_id
        intro pr hpr hmemr
        exact sanitize_target_not_mem pr.1 pr.2 (by simpa using hpr) hp
          (hr ▸ hmemr)
      have hus : hasDup '_' r = false := by
        rw [hr]
        simp only [sanitizePathL, if_neg hp]
        exact hasDup_collapseGo_ne (by decide) _ _
          (not_hasDup_collapseDup '_' _)
      have hsl : hasDup '/' r = false := by
        rw [hr]
        simp only [sanitizePathL, if_neg hp]
        exact not_hasDup_collapseDup '/' _
      simp only [sanitizePathL, if_neg hempty, hrun, collapseDup]
      rw [collapseGo_id hus, collapseGo_id hsl]

/-! ## `infer_dependencies` (lazarus_agent.py lines 1912-1985)

The source walks the AST of every generated `.py` file (via the Python
standard library's `ast` module, with `SyntaxError` caught and ignored) and
maps imported root modules to PyPI package names through a fixed table; the
per-file scan is abstracted here as a function `scan` from a file to the list
of packages its imports map to, since claim C10 holds for every such scan.
Afterwards the source unconditionally adds three baseline packages.
-/

/-- One parsed file of LLM output: a `{"filename": ..., "content": ...}` dict. -/
structure PFile where
  filename : String
  content : String
deriving DecidableEq, Repr

/-- Add an element to a Python-set modelled as a duplicate-free list. -/
def addUnique (l : List String) (x : String) : List String :=
  if x ∈ l then l else l ++ [x]

/-- `infer_dependencies`: scan each `.py` file for packages, then always add
the three baseline runner packages. -/
def infer_dependencies (scan : PFile → List String) (files : List PFile) :
    List String :=
  let detected := files.foldl
    (fun acc f =>
      if endsWithS f.filename ".py" then (scan f).foldl addUnique acc else acc) []
  addUnique (addUnique (addUnique detected "uvicorn") "fastapi") "python-multipart"

theorem mem_addUnique_self (l : List String) (x : String) : x ∈ addUnique l x := by
  unfold addUnique
  by_cases h : x ∈ l
  · simp [h]
  · simp [h]

theorem mem_addUnique_of_mem {l : List String} {y : String} (x : String)
    (h : y ∈ l) : y ∈ addUnique l x := by
  unfold addUnique
  by_cases hx : x ∈ l <;> simp [hx, h]

/-- C10 — Dependency-inference baseline: for every import scan and every file
list (including the empty list), `infer_dependencies` returns a list containing
`"uvicorn"`, `"fastapi"` and `"python-multipart"`. -/
theorem infer_dependencies_baseline (scan : PFile → List String)
    (files : List PFile) :
    "uvicorn" ∈ infer_dependencies scan files ∧
    "fastapi" ∈ infer_dependencies scan files ∧
    "python-multipart" ∈ infer_dependencies scan files := by
  unfold infer_dependencies
  refine ⟨?_, ?_, ?_⟩
  · exact mem_addUnique_of_mem _ (mem_addUnique_of_mem _ (mem_addUnique_self _ _))
  · exact mem_addUnique_of_mem _ (mem_addUnique_self _ _)
  · exact mem_addUnique_self _ _

/-! ## `_detect_entrypoint_and_runtime` (lazarus_agent.py lines 1409-1505)

Three priority tiers: canonical Python entrypoints (when a Python manifest or
any `.py` file exists), then Node server files outside frontend paths whose
content shows no browser APIs, then fallbacks.  Python `for`-loops that
`continue` on a skip condition and `break` on the first hit are `List.find?`
with the conjunction of the conditions.
-/

/-- `os.path.basename` for slash-separated paths. -/
def basenameL (l : List Char) : List Char := (l.reverse.takeWhile (· ≠ '/')).reverse

/-- `os.path.basename` on strings. -/
def basenameS (s : String) : String := String.mk (basenameL s.data)

/-- Python `str.lower` on strings. -/
def lowerS (s : String) : String := String.mk (lowerL s.data)

/-- The canonical Python entrypoint basenames of the source. -/
def pythonEntrypoints : List String := ["main.py", "app.py", "server.py", "run.py", "api.py"]

/-- The canonical Node server entrypoint basenames of the source. -/
def nodeServerEntrypoints : List String := ["server.js", "index.js", "backend.js", "api.js"]

/-- The source's client-side-content test (`document.` / `window.` /
`addEventListener` / `getElementById` occurring in the file content). -/
def isClientSide (content : String) : Bool :=
  containsS content "document." || containsS content "window." ||
  containsS content "addEventListener" || containsS content "getElementById"

/-- `_detect_entrypoint_and_runtime`: returns the entrypoint (if one was
assigned) and the runtime string. -/
def detect_entrypoint_and_runtime (files : List PFile) : Option String × String :=
  let hasPythonBackend := files.any (fun f => endsWithS f.filename "requirements.txt")
  let hasAnyPy := files.any (fun f => endsWithS f.filename ".py")
  let p1 : Option String :=
    if hasPythonBackend || hasAnyPy then
      match files.find? (fun f =>
          !(containsS (lowerS f.filename) "frontend" ||
            containsS (lowerS f.filename) "client") &&
          pythonEntrypoints.contains (basenameS f.filename)) with
      | some f => some f.filename
      | none =>
          (files.find? (fun f =>
            endsWithS f.filename ".py" &&
            (containsS (lowerS f.filename) "backend" ||
             containsS (lowerS f.filename) "api"))).map (·.filename)
    else none
  match p1 with
  | some e => (some e, "python")
  | none =>
      match files.find? (fun f =>
          !(containsS (lowerS f.filename) "frontend" ||
            containsS (lowerS f.filename) "client" ||
            containsS (lowerS f.filename) "public") &&
          (nodeServerEntrypoints.contains (basenameS f.filename) ||
           endsWithS f.filename "server.js") &&
          !(isClientSide f.content)) with
      | some f => (some f.filename, "node")
      | none =>
          match files.filter (fun f => endsWithS f.filename ".py") with
          | pf :: pyRest =>
              let backendPy := ((pf :: pyRest).find?
                (fun f => containsS (lowerS f.filename) "backend")).map (·.filename)
              (some (backendPy.getD pf.filename), "python")
          | [] =>
              if files.any (fun f => endsWithS f.filename "package.json") then
                match files.find? (fun f =>
                    endsWithS f.filename ".js" &&
                    (containsS (lowerS f.filename) "backend" ||
                     containsS (lowerS f.filename) "server") &&
                    !(containsS f.content "document." ||
                      containsS f.content "window.")) with
                | some f => (some f.filename, "node")
                | none => (some "modernized_stack/backend/main.py", "python")
              else (some "modernized_stack/backend/main.py", "python")

/-- C6 — Entrypoint inference: a file set with both `backend/main.py` and a
browser-flavoured `frontend/app.js` resolves to `("backend/main.py", "python")`;
a file set with only a DOM-free `server.js` plus a `package.json` manifest
resolves to `("server.js", "node")`. -/
theorem entrypoint_inference_cases :
    detect_entrypoint_and_runtime
        [⟨"frontend/app.js", "x = document.getElementById;"⟩,
         ⟨"backend/main.py", "print(1)"⟩] = (some "backend/main.py", "python") ∧
    detect_entrypoint_and_runtime
        [⟨"server.js", "const express = 1;"⟩, ⟨"package.json", "x"⟩] =
      (some "server.js", "node") := by
  constructor <;> decide

/-! ## `_parse_files_from_response` (lazarus_agent.py lines 1133-1231)

Four strategies, each tried only when the previous produced nothing.  The
regexes of strategies 1-3 are deterministic despite backtracking: every greedy
character-class run is followed by a character outside the class, and every
lazy `(.*?)` is resolved by the first position where its follower matches (for
strategy 1 the follower is a literal, and if no occurrence of the content
terminator exists after the first path terminator, none exists after any later
one, so failure is final).  They are compiled here into character scanners.
-/

/-- Split at the first occurrence of `pat`: `l = pre ++ pat ++ post` with
minimal `pre`. -/
def splitFirst (pat : List Char) : List Char → Option (List Char × List Char)
  | [] => if pat.isPrefixOf [] then some ([], []) else none
  | c :: t =>
      if pat.isPrefixOf (c :: t) then some ([], (c :: t).drop pat.length)
      else (splitFirst pat t).map (fun pr => (c :: pr.1, pr.2))

/-- Prefix of `l` before the first occurrence of `pat`, or all of `l`
(Python `l.split(pat)[0]`). -/
def takeBefore (pat l : List Char) : List Char :=
  match splitFirst pat l with
  | some (pre, _) => pre
  | none => l

/-- Python `str.split(nl)` on a character list. -/
def splitOnNl : List Char → List (List Char)
  | [] => [[]]
  | c :: t =>
      if c = '\n' then [] :: splitOnNl t
      else
        match splitOnNl t with
        | h :: r => (c :: h) :: r
        | [] => [[c]]

/-- Python `nl.join` on character-list lines. -/
def joinNl : List (List Char) → List Char
  | [] => []
  | [h] => h
  | h :: m :: t => h ++ '\n' :: joinNl (m :: t)

/-- Word characters of the regex `\w` (ASCII). -/
def isWordChar (c : Char) : Bool := c.isAlphanum || c = '_'

/-- `re.sub(fence-open-line, '', c)` of `_clean_content`: strip a leading
fenced-code-block marker line (anchored `^`, so at most the very start). -/
def stripLeadFence (l : List Char) : List Char :=
  match dropLit "```".data l with
  | none => l
  | some r =>
      let w := r.takeWhile isWordChar
      match r.drop w.length with
      | c :: rest => if c = '\n' then rest else l
      | [] => l

/-- `re.sub(fence-close, '', c)` of `_clean_content`: since the input was
already stripped of trailing whitespace, the pattern can only match a literal
fence at the very end with its `\s*` empty. -/
def stripTrailFence (l : List Char) : List Char :=
  if ("\n```".data).isSuffixOf l then l.take (l.length - 4) else l

/-- `_clean_content`: strip whitespace, then a leading and a trailing
markdown fence marker. -/
def cleanContent (raw : List Char) : List Char :=
  stripTrailFence (stripLeadFence (pyStripL raw))

/-- The shared per-strategy accumulation loop: strip the raw path, skip empty
or already-seen paths, clean the content (first occurrence of a path wins). -/
def dedupeGo : List (List Char × List Char) → List (List Char) → List PFile
  | [], _ => []
  | m :: rest, seen =>
      let fp := pyStripL m.1
      if fp ≠ [] ∧ fp ∉ seen then
        ⟨String.mk fp, String.mk (cleanContent m.2)⟩ :: dedupeGo rest (fp :: seen)
      else dedupeGo rest seen

/-- One attempted match of strategy 1's regex at the current position:
literal `<file`, one-or-more whitespace, `path="`, lazy path up to the first
quote-gt, lazy content up to the first `</file>`. -/
def tryMatch1 (l : List Char) : Option ((List Char × List Char) × List Char) :=
  match dropLit "<file".data l with
  | none => none
  | some r1 =>
      match r1 with
      | [] => none
      | c :: _ =>
          if pyIsSpace c then
            match dropLit "path=\"".data (r1.dropWhile pyIsSpace) with
            | none => none
            | some r2 =>
                match splitFirst "\">".data r2 with
                | none => none
                | some (path, r3) =>
                    match splitFirst "</file>".data r3 with
                    | none => none
                    | some (content, rest) => some ((path, content), rest)
          else none

/-- One attempted match of strategy 2's regex: like strategy 1 but the path is
a nonempty run of non-quote characters delimited by either quote style. -/
def tryMatch2 (l : List Char) : Option ((List Char × List Char) × List Char) :=
  match dropLit "<file".data l with
  | none => none
  | some r1 =>
      match r1 with
      | [] => none
      | c :: _ =>
          if pyIsSpace c then
            match dropLit "path=".data (r1.dropWhile pyIsSpace) with
            | none => none
            | some r2 =>
                match r2 with
                | q1 :: r3 =>
                    if q1 = '"' ∨ q1 = squote then
                      let run := r3.takeWhile (fun c => ¬(c = '"' ∨ c = squote))
                      if run = [] then none
                      else
                        match r3.drop run.length with
                        | q2 :: r4 =>
                            if (q2 = '"' ∨ q2 = squote) then
                              match r4 with
                              | g :: r5 =>
                                  if g = '>' then
                                    match splitFirst "</file>".data r5 with
                                    | none => none
                                    | some (content, rest) =>
                                        some ((run, content), rest)
                                  else none
                              | [] => none
                            else none
                        | [] => none
                    else none
                | [] => none
          else none

/-- Does `</file` followed by optional whitespace and `>` start here?  If so,
return the remainder after the `>`. -/
def closeAt3 (l : List Char) : Option (List Char) :=
  match dropLit "</file".data l with
  | none => none
  | some r =>
      match r.dropWhile pyIsSpace with
      | c :: rest => if c = '>' then some rest else none
      | [] => none

/-- Lazy scan for strategy 3's closing tag `</file\s*>`: the first position
whose suffix completes the closing tag ends the content group. -/
def scanClose3 : List Char → Option (List Char × List Char)
  | [] => none
  | c :: t =>
      match closeAt3 (c :: t) with
      | some rest => some ([], rest)
      | none => (scanClose3 t).map (fun pr => (c :: pr.1, pr.2))

/-- One attempted match of strategy 3's regex: whitespace tolerated around
`=`, inside the opening tag and before the closing tag's `>`. -/
def tryMatch3 (l : List Char) : Option ((List Char × List Char) × List Char) :=
  match dropLit "<file".data l with
  | none => none
  | some r1 =>
      match r1 with
      | [] => none
      | c :: _ =>
          if pyIsSpace c then
            match dropLit "path".data (r1.dropWhile pyIsSpace) with
            | none => none
            | some r2 =>
                match dropLit "=".data (r2.dropWhile pyIsSpace) with
                | none => none
                | some r3 =>
                    match dropLit "\"".data (r3.dropWhile pyIsSpace) with
                    | none => none
                    | some r4 =>
                        let run := r4.takeWhile (· ≠ '"')
                        if run = [] then none
                        else
                          match dropLit "\"".data (r4.drop run.length) with
                          | none => none
                          | some r5 =>
                              match dropLit ">".data (r5.dropWhile pyIsSpace) with
                              | none => none
                              | some r6 =>
                                  match scanClose3 r6 with
                                  | none => none
                                  | some (content, rest) =>
                                      some ((run, content), rest)
          else none

/-- `re.findall` for a deterministic pattern: try a match at each position,
left to right and non-overlapping; fuel equal to the text length suffices
because every step consumes at least one character. -/
def findallGo (tm : List Char → Option ((List Char × List Char) × List Char)) :
    Nat → List Char → List (List Char × List Char)
  | 0, _ => []
  | fuel + 1, l =>
      match tm l with
      | some (pc, rest) => pc :: findallGo tm fuel rest
      | none =>
          match l with
          | [] => []
          | _ :: t => findallGo tm fuel t

/-- Strategy 1 matches (`re.findall` of the strict double-quote pattern). -/
def findall1 (l : List Char) : List (List Char × List Char) :=
  findallGo tryMatch1 l.length l

/-- Strategy 2 matches (single- or double-quoted paths). -/
def findall2 (l : List Char) : List (List Char × List Char) :=
  findallGo tryMatch2 l.length l

/-- Strategy 3 matches (extra whitespace tolerated in the tags). -/
def findall3 (l : List Char) : List (List Char × List Char) :=
  findallGo tryMatch3 l.length l

/-- Strategy 4's opening-tag test (`re.match`, anchored at line start; no `>`
required, either quote style). -/
def s4OpenMatch (line : List Char) : Option (List Char) :=
  match dropLit "<file".data line with
  | none => none
  | some r1 =>
      match r1 with
      | [] => none
      | c :: _ =>
          if pyIsSpace c then
            match dropLit "path".data (r1.dropWhile pyIsSpace) with
            | none => none
            | some r2 =>
                match dropLit "=".data (r2.dropWhile pyIsSpace) with
                | none => none
                | some r3 =>
                    match r3.dropWhile pyIsSpace with
                    | q :: r4 =>
                        if q = '"' ∨ q = squote then
                          let run := r4.takeWhile (fun c => ¬(c = '"' ∨ c = squote))
                          if run = [] then none
                          else
                            match r4.drop run.length with
                            | q2 :: _ =>
                                if q2 = '"' ∨ q2 = squote then some run else none
                            | [] => none
                        else none
                    | [] => none
          else none

/-- One attempted match of strategy 4's `re.sub` pattern (the opening tag
including `>` and trailing whitespace); returns the remainder after it. -/
def s4SubMatch (l : List Char) : Option (List Char) :=
  match dropLit "<file".data l with
  | none => none
  | some r1 =>
      match r1 with
      | [] => none
      | c :: _ =>
          if pyIsSpace c then
            match dropLit "path".data (r1.dropWhile pyIsSpace) with
            | none => none
            | some r2 =>
                match dropLit "=".data (r2.dropWhile pyIsSpace) with
                | none => none
                | some r3 =>
                    match r3.dropWhile pyIsSpace with
                    | q :: r4 =>
                        if q = '"' ∨ q = squote then
                          let run := r4.takeWhile (fun c => ¬(c = '"' ∨ c = squote))
                          if run = [] then none
                          else
                            match r4.drop run.length with
                            | q2 :: r5 =>
                                if q2 = '"' ∨ q2 = squote then
                                  match r5 with
                                  | g :: r6 =>
                                      if g = '>' then some (r6.dropWhile pyIsSpace)
                                      else none
                                  | [] => none
                                else none
                            | [] => none
                        else none
                    | [] => none
          else none

/-- `re.sub(opening-tag-pattern, '', line)`: remove every occurrence. -/
def s4SubGo : Nat → List Char → List Char
  | 0, l => l
  | fuel + 1, l =>
      match s4SubMatch l with
      | some rest => s4SubGo fuel rest
      | none =>
          match l with
          | [] => []
          | c :: t => c :: s4SubGo fuel t

/-- The substitution applied to an opening-tag line by strategy 4. -/
def s4Sub (l : List Char) : List Char := s4SubGo l.length l

/-- The mutable state of strategy 4's line state machine. -/
structure S4 where
  files : List PFile
  seen : List (List Char)
  inFile : Bool
  curPath : Option (List Char)
  curContent : List (List Char)
deriving Repr

/-- Python truthiness of `current_path` (a `None`-able string). -/
def s4PathTruthy (o : Option (List Char)) : Prop :=
  match o with
  | some p => p ≠ []
  | none => False

instance (o : Option (List Char)) : Decidable (s4PathTruthy o) := by
  unfold s4PathTruthy
  cases o <;> infer_instance

/-- Append a file record unless the stripped path was already seen. -/
def s4Emit (st : S4) (fp : List Char) (contentLines : List (List Char)) : S4 :=
  if fp ∉ st.seen then
    { st with
        files := st.files ++ [⟨String.mk fp, String.mk (cleanContent (joinNl contentLines))⟩],
        seen := fp :: st.seen }
  else st

/-- One line of strategy 4's state machine. -/
def s4Line (st : S4) (line : List Char) : S4 :=
  match s4OpenMatch line with
  | some grp =>
      let st1 :=
        if st.inFile ∧ s4PathTruthy st.curPath ∧ st.curContent ≠ [] then
          s4Emit st (pyStripL (st.curPath.getD [])) st.curContent
        else st
      let after := s4Sub line
      { st1 with
          curPath := some grp,
          curContent := if pyStripL after ≠ [] then [pyRstripL after] else [],
          inFile := true }
  | none =>
      if containsL line "</file".data ∧ st.inFile then
        let before := takeBefore "</file".data line
        let content2 :=
          st.curContent ++ (if pyStripL before ≠ [] then [pyRstripL before] else [])
        let st2 := s4Emit st (pyStripL (st.curPath.getD [])) content2
        { st2 with inFile := false, curPath := none, curContent := [] }
      else if st.inFile then { st with curContent := st.curContent ++ [line] }
      else st

/-- Strategy 4: the line-oriented state machine, including the final flush of
an unterminated trailing capture. -/
def strat4Go (l : List Char) : List PFile :=
  let final := (splitOnNl l).foldl s4Line ⟨[], [], false, none, []⟩
  let final2 :=
    if final.inFile ∧ s4PathTruthy final.curPath ∧ final.curContent ≠ [] then
      s4Emit final (pyStripL (final.curPath.getD [])) final.curContent
    else final
  final2.files

/-- Records recovered by strategy 1. -/
def strat1Records (s : String) : List PFile := dedupeGo (findall1 s.data) []

/-- Records recovered by strategy 2. -/
def strat2Records (s : String) : List PFile := dedupeGo (findall2 s.data) []

/-- Records recovered by strategy 3. -/
def strat3Records (s : String) : List PFile := dedupeGo (findall3 s.data) []

/-- Records recovered by strategy 4. -/
def strat4Records (s : String) : List PFile := strat4Go s.data

/-- `_parse_files_from_response`: the four-strategy cascade with early
returns. -/
def parse_files_from_response (s : String) : List PFile :=
  if strat1Records s ≠ [] then strat1Records s
  else if strat2Records s ≠ [] then strat2Records s
  else if strat3Records s ≠ [] then strat3Records s
  else strat4Records s

/-- C4 — Parser totality: `_parse_files_from_response` is a total function
returning a list of records (it is defined for every input string), and it
returns the empty list exactly when every strategy in the cascade recovers
nothing. -/
theorem parser_totality (s : String) :
    parse_files_from_response s = [] ↔
      strat1Records s = [] ∧ strat2Records s = [] ∧
      strat3Records s = [] ∧ strat4Records s = [] := by
  unfold parse_files_from_response
  by_cases h1 : strat1Records s = [] <;>
    by_cases h2 : strat2Records s = [] <;>
      by_cases h3 : strat3Records s = [] <;>
        simp [h1, h2, h3]

@[simp] theorem stringMk_inj {a b : List Char} :
    String.mk a = String.mk b ↔ a = b :=
  ⟨fun h => congrArg String.data h, fun h => by rw [h]⟩

theorem dedupeGo_filter_of_seen (p : List Char) :
    ∀ (ms : List (List Char × List Char)) (seen : List (List Char)),
      p ∈ seen →
      (dedupeGo ms seen).filter (fun r => r.filename = String.mk p) = []
  | [], _, _ => by simp [dedupeGo]
  | m :: rest, seen, hseen => by
      simp only [dedupeGo]
      by_cases hcond : pyStripL m.1 ≠ [] ∧ pyStripL m.1 ∉ seen
      · rw [if_pos hcond]
        have hne : pyStripL m.1 ≠ p := fun hE => hcond.2 (hE ▸ hseen)
        have htail := dedupeGo_filter_of_seen p rest (pyStripL m.1 :: seen)
          (List.mem_cons_of_mem _ hseen)
        simp [List.filter_cons, hne, htail]
      · rw [if_neg hcond]
        exact dedupeGo_filter_of_seen p rest seen hseen

theorem dedupeGo_filter_first :
    ∀ (ms : List (List Char × List Char)) (seen : List (List Char))
      (p : List Char) (mt : List Char × List Char),
      p ≠ [] → p ∉ seen →
      ms.find? (fun m => decide (pyStripL m.1 = p)) = some mt →
      (dedupeGo ms seen).filter (fun r => r.filename = String.mk p)
        = [⟨String.mk p, String.mk (cleanContent mt.2)⟩]
  | [], _, _, _, _, _, hfind => by simp [List.find?] at hfind
  | m :: rest, seen, p, mt, hp, hseen, hfind => by
      by_cases hm : pyStripL m.1 = p
      · rw [List.find?_cons_of_pos _ (by simp [hm])] at hfind
        have hmt : mt = m := by injection hfind with h; exact h.symm
        subst hmt
        simp only [dedupeGo, hm]
        rw [if_pos ⟨hp, hseen⟩]
        have htail := dedupeGo_filter_of_seen p rest (p :: seen)
          (List.mem_cons_self ..)
        simp [List.filter_cons, htail]
      · rw [List.find?_cons_of_neg _ (by simp [hm])] at hfind
        simp only [dedupeGo]
        by_cases hcond : pyStripL m.1 ≠ [] ∧ pyStripL m.1 ∉ seen
        · rw [if_pos hcond]
          have hrest := dedupeGo_filter_first rest (pyStripL m.1 :: seen) p mt hp
            (by
              intro hmem
              rcases List.mem_cons.mp hmem with hE | hmem2
              · exact hm hE.symm
              · exact hseen hmem2) hfind
          simp [List.filter_cons, hm, hrest]
        · rw [if_neg hcond]
          exact dedupeGo_filter_first rest seen p mt hp hseen hfind

/-- C5 — Parser deduplication: whenever strategy 1's matcher finds a first
occurrence `mt` of a (stripped, nonempty) path `p` in the response, the parsed
result contains exactly one record for `p` and its content is the cleaned
content of that first occurrence; later duplicates in the same response are
discarded. -/
theorem parser_dedup_first_wins (s p : String) (mt : List Char × List Char)
    (hp : p ≠ "")
    (hfind : (findall1 s.data).find? (fun m => decide (pyStripL m.1 = p.data))
      = some mt) :
    (parse_files_from_response s).filter (fun r => r.filename = p)
      = [⟨p, String.mk (cleanContent mt.2)⟩] := by
  have hpd : p.data ≠ [] := by
    intro h
    apply hp
    have hpe : p = String.mk p.data := rfl
    rw [hpe, h]
  have hfilter := dedupeGo_filter_first (findall1 s.data) [] p.data mt hpd
    (by simp) hfind
  have hmk : String.mk p.data = p := rfl
  rw [hmk] at hfilter
  have hne : strat1Records s ≠ [] := by
    intro h0
    rw [show strat1Records s = dedupeGo (findall1 s.data) [] from rfl] at h0
    rw [h0] at hfilter
    simp at hfilter
  rw [parse_files_from_response, if_pos hne]
  exact hfilter

/-- Response used to witness C5: the same path occurs in two strict blocks. -/
def c5Response : String :=
  "<file path=\"a.py\">one</file><file path=\"a.py\">two</file>"

theorem parser_dedup_first_wins_witness :
    ("a.py" : String) ≠ "" ∧
    (parse_files_from_response c5Response).filter (fun r => r.filename = "a.py")
      = [⟨"a.py", String.mk (cleanContent "one".data)⟩] :=
  ⟨by decide,
   parser_dedup_first_wins c5Response "a.py" ("a.py".data, "one".data)
     (by decide) (by decide)⟩

/-! ## Batch planning (lazarus_agent.py lines 1507-1686)

`_group_files_into_batches` tries plan-declared batches, appends a synthetic
"Remaining Files" batch for anything the plan missed, falls back to
directory-based grouping when the plan yields no batches, and always runs the
oversizing pass.  The batch-header regex
`(?:\*\*)?BATCH\s+\d+\s*[-:]\s*(.+?)(?:\*\*)?:?\s*$` is applied with
`re.match` to an already-stripped line, so `\s*$` is the line end and the lazy
group takes the line remainder minus its longest valid suffix among
`**:`, `**`, `:`, `` (examined longest first, each requiring a nonempty
group). -/

/-- One file record of the repository scan ({"path": ..., "content": ...}). -/
structure FileRec where
  path : String
  content : String
deriving DecidableEq, Repr

/-- A named batch of files. -/
structure Batch where
  name : String
  files : List FileRec
deriving DecidableEq, Repr

/-- Insert into the `path_to_file` dict: Python dict semantics (first
insertion fixes the position, later writes update the value). -/
def insertPathFile (m : List (String × FileRec)) (f : FileRec) :
    List (String × FileRec) :=
  if m.any (fun pr => pr.1 = f.path) then
    m.map (fun pr => if pr.1 = f.path then (pr.1, f) else pr)
  else m ++ [(f.path, f)]

/-- `path_to_file = {f["path"]: f for f in files}`. -/
def buildPathToFile (files : List FileRec) : List (String × FileRec) :=
  files.foldl insertPathFile []

/-- Dict membership/lookup on the association list. -/
def lookupPath (m : List (String × FileRec)) (p : String) : Option FileRec :=
  (m.find? (fun pr => pr.1 = p)).map (·.2)

/-- The fuzzy path match of `_parse_batches_from_plan` (suffix containment in
either direction, or equal basenames), over dict insertion order, first hit
wins. -/
def fuzzyResolve (m : List (String × FileRec)) (fp : String) : Option FileRec :=
  (m.find? (fun pr =>
    endsWithS pr.1 fp || endsWithS fp pr.1 ||
    basenameS pr.1 = basenameS fp)).map (·.2)

/-- Resolution of one `- path` plan line: exact dict hit, then fuzzy match. -/
def resolvePlanPath (m : List (String × FileRec)) (fp : String) : Option FileRec :=
  match lookupPath m fp with
  | some f => some f
  | none => fuzzyResolve m fp

/-- The lazy group of the batch-header regex: the remainder minus its longest
valid optional suffix, provided a nonempty group remains. -/
def computeHeaderGroup (r : List Char) : List Char :=
  if ("**:".data).isSuffixOf r ∧ 3 < r.length then r.take (r.length - 3)
  else if ("**".data).isSuffixOf r ∧ 2 < r.length then r.take (r.length - 2)
  else if (":".data).isSuffixOf r ∧ 1 < r.length then r.take (r.length - 1)
  else r

/-- `re.match` of the batch-header pattern against a stripped line, returning
group 1; `BATCH` is matched case-insensitively, then whitespace, digits,
a dash or colon, optional whitespace and the lazy name group. -/
def matchBatchHeader (l : List Char) : Option (List Char) :=
  let l1 := if ("**".data).isPrefixOf l then l.drop 2 else l
  if ("batch".data).isPrefixOf (lowerL l1) then
    let l2 := l1.drop 5
    if l2.takeWhile pyIsSpace = [] then none
    else
      let l3 := l2.dropWhile pyIsSpace
      let ds := l3.takeWhile Char.isDigit
      if ds = [] then none
      else
        match (l3.drop ds.length).dropWhile pyIsSpace with
        | c :: l5 =>
            if c = '-' ∨ c = ':' then
              let r := l5.dropWhile pyIsSpace
              if r = [] then none else some (computeHeaderGroup r)
            else none
        | [] => none
  else none

/-- Flush the current batch onto the batch list when it resolved any file
(used both on a new header and at end of plan). -/
def planFlush (st : List Batch × Option Batch) : List Batch :=
  match st.2 with
  | some cb => if cb.files ≠ [] then st.1 ++ [cb] else st.1
  | none => st.1

/-- The path spelled on a `- path` plan line: strip the marker, whitespace,
and surrounding backticks or quotes. -/
def planLinePath (line : List Char) : String :=
  String.mk (pyStripChars [btick, '"', squote] (pyStripL ((pyStripL line).drop 2)))

/-- One line of `_parse_batches_from_plan`'s loop: batch headers flush the
current batch (if it resolved any file) and start a new one; `- path` lines
resolve against the dict and append to the current batch. -/
def planLineStep (m : List (String × FileRec))
    (st : List Batch × Option Batch) (line : List Char) :
    List Batch × Option Batch :=
  match matchBatchHeader (pyStripL line) with
  | some grp =>
      (planFlush st, some ⟨String.mk (pyRstripChar ':' (pyStripL grp)), []⟩)
  | none =>
      match st.2 with
      | some cb =>
          if ("- ".data).isPrefixOf (pyStripL line) then
            match resolvePlanPath m (planLinePath line) with
            | some f => (st.1, some ⟨cb.name, cb.files ++ [f]⟩)
            | none => st
          else st
      | none => st

/-- `_parse_batches_from_plan` (lazarus_agent.py line 1555). -/
def parse_batches_from_plan (plan : String) (files : List FileRec) : List Batch :=
  if plan = "" then []
  else
    planFlush ((splitOnNl plan.data).foldl
      (planLineStep (buildPathToFile files)) ([], none))

/-- The configuration-file extensions of `_group_by_directory`. -/
def configExtensions : List String :=
  [".json", ".yml", ".yaml", ".toml", ".cfg", ".ini", ".env", ".lock"]

/-- The configuration-file basenames of `_group_by_directory`. -/
def configNames : List String :=
  ["package.json", "requirements.txt", "tsconfig.json", ".gitignore",
   "Dockerfile", "docker-compose.yml", ".env", ".env.example",
   "next.config.mjs", "next.config.ts", "tailwind.config.ts",
   "postcss.config.mjs", "eslint.config.mjs", "vite.config.ts"]

/-- `os.path.dirname` (posix): everything up to the last slash, with trailing
slashes stripped unless the head is all slashes. -/
def dirnameL (l : List Char) : List Char :=
  match findLast ['/'] l with
  | none => []
  | some i =>
      let head := l.take (i + 1)
      if head ≠ [] ∧ ¬ (head.all (· = '/')) then pyRstripChar '/' head else head

/-- `os.path.dirname` on strings. -/
def dirnameS (p : String) : String := String.mk (dirnameL p.data)

/-- The extension part of `os.path.splitext` (posix): from the last dot of the
basename, provided some non-dot character of the basename precedes it. -/
def splitextExt (p : String) : String :=
  let b := basenameL p.data
  let k := (b.takeWhile (· = '.')).length
  match findLast ['.'] b with
  | some i => if k ≤ i then String.mk (b.drop i) else ""
  | none => ""

/-- Is this file routed to the "Config & Dependencies" batch? -/
def isConfigFile (f : FileRec) : Bool :=
  configNames.contains (basenameS f.path) ||
  configExtensions.contains (splitextExt f.path)

/-- Append to a directory group (Python `dict.setdefault`-style fold). -/
def insertDirGroup (m : List (String × List FileRec)) (key : String)
    (f : FileRec) : List (String × List FileRec) :=
  if m.any (fun pr => pr.1 = key) then
    m.map (fun pr => if pr.1 = key then (pr.1, pr.2 ++ [f]) else pr)
  else m ++ [(key, [f])]

/-- One file of `_group_by_directory`'s classification loop. -/
def dirGroupStep (st : List FileRec × List (String × List FileRec))
    (f : FileRec) : List FileRec × List (String × List FileRec) :=
  if isConfigFile f then (st.1 ++ [f], st.2)
  else
    let d := dirnameS f.path
    let key := if d = "" then "root" else d
    (st.1, insertDirGroup st.2 key f)

/-- Lexicographic code-point comparison (Python string `<`). -/
def charListLt : List Char → List Char → Bool
  | [], [] => false
  | [], _ :: _ => true
  | _ :: _, [] => false
  | a :: as, b :: bs =>
      if a.toNat < b.toNat then true
      else if b.toNat < a.toNat then false
      else charListLt as bs

/-- Python string `<` on strings. -/
def strLtB (a b : String) : Bool := charListLt a.data b.data

/-- Insertion into a key-sorted association list (ascending string order). -/
def insertSortedStr (x : String × List FileRec) :
    List (String × List FileRec) → List (String × List FileRec)
  | [] => [x]
  | y :: t => if strLtB x.1 y.1 then x :: y :: t else y :: insertSortedStr x t

/-- Python `sorted(dir_groups.items())` (keys are unique, so any correct
ascending sort agrees with it). -/
def sortByKey (l : List (String × List FileRec)) :
    List (String × List FileRec) :=
  l.foldr insertSortedStr []

/-- `dir_path.replace('/', ' > ')`. -/
def replSlashGt : List Char → List Char
  | [] => []
  | c :: t => (if c = '/' then " > ".data else [c]) ++ replSlashGt t

/-- The display name of a directory batch. -/
def dirBatchName (d : String) : String :=
  if d = "root" then "Root Files" else String.mk (replSlashGt d.data)

/-- Total content length of a file list (the batch budget measure). -/
def filesChars (fs : List FileRec) : Nat :=
  (fs.map (fun f => f.content.data.length)).sum

/-- `"<name> (Part <n>)"`. -/
def partName (name : String) (idx : Nat) : String :=
  name ++ " (Part " ++ toString idx ++ ")"

/-- The inner loop of `_split_oversized_batches` for one oversized batch:
flush the accumulated sub-batch before any file that would overflow it, and
name sub-batches `(Part n)` (the final one keeps the original name when no
flush ever happened). -/
def splitBatchGo (name : String) (maxChars : Nat) :
    List FileRec → List FileRec → Nat → Nat → List Batch
  | [], acc, _, idx =>
      if acc ≠ [] then [⟨if 1 < idx then partName name idx else name, acc⟩]
      else []
  | f :: rest, acc, chars, idx =>
      if chars + f.content.data.length > maxChars ∧ acc ≠ [] then
        ⟨partName name idx, acc⟩ ::
          splitBatchGo name maxChars rest [f] f.content.data.length (idx + 1)
      else
        splitBatchGo name maxChars rest (acc ++ [f])
          (chars + f.content.data.length) idx

/-- `_split_oversized_batches` (lazarus_agent.py line 1651). -/
def split_oversized_batches (batches : List Batch) (maxChars : Nat) :
    List Batch :=
  catMap (fun b =>
    if filesChars b.files ≤ maxChars then [b]
    else splitBatchGo b.name maxChars b.files [] 0 1) batches

/-- The classification loop of `_group_by_directory`: config files and the
per-directory groups, in insertion order. -/
def dirFold (files : List FileRec) : List FileRec × List (String × List FileRec) :=
  files.foldl dirGroupStep ([], [])

/-- The batches of `_group_by_directory` before the oversizing pass: the
config batch (when nonempty) followed by the directory batches in sorted
key order. -/
def dirBaseBatches (files : List FileRec) : List Batch :=
  (if (dirFold files).1 ≠ [] then
    [⟨"Config & Dependencies", (dirFold files).1⟩] else []) ++
  (sortByKey (dirFold files).2).map (fun pr => Batch.mk (dirBatchName pr.1) pr.2)

/-- `_group_by_directory` (lazarus_agent.py line 1615). -/
def group_by_directory (files : List FileRec) (maxChars : Nat) : List Batch :=
  split_oversized_batches (dirBaseBatches files) maxChars

/-- The set of paths the plan-declared batches assigned. -/
def assignedPaths (files : List FileRec) (plan : String) : List String :=
  catMap (fun b => b.files.map (·.path)) (parse_batches_from_plan plan files)

/-- The files whose paths the plan-declared batches missed, in scan order. -/
def planMissingFiles (files : List FileRec) (plan : String) : List FileRec :=
  files.filter (fun f => ¬ (f.path ∈ assignedPaths files plan))

/-- `_group_files_into_batches` (lazarus_agent.py line 1507), with the batch
budget passed explicitly (the source computes the default from the coder
model's context window). -/
def group_files_into_batches (files : List FileRec) (plan : String)
    (maxChars : Nat) : List Batch :=
  if parse_batches_from_plan plan files ≠ [] then
    if planMissingFiles files plan = [] then
      split_oversized_batches (parse_batches_from_plan plan files) maxChars
    else
      split_oversized_batches
        (parse_batches_from_plan plan files ++
          [⟨"Remaining Files", planMissingFiles files plan⟩]) maxChars
  else group_by_directory files maxChars

theorem filesChars_append (a b : List FileRec) :
    filesChars (a ++ b) = filesChars a + filesChars b := by
  simp [filesChars]

theorem catMap_append (f : α → List β) (a b : List α) :
    catMap f (a ++ b) = catMap f a ++ catMap f b := by
  induction a with
  | nil => rfl
  | cons x t ih => simp [catMap, ih]

theorem splitBatchGo_spec (name : String) (maxChars : Nat) :
    ∀ (files acc : List FileRec) (chars idx : Nat),
      chars = filesChars acc →
      (filesChars acc ≤ maxChars ∨
        ∃ f, acc = [f] ∧ maxChars < f.content.data.length) →
      (∀ b ∈ splitBatchGo name maxChars files acc chars idx,
          filesChars b.files ≤ maxChars ∨
          ∃ f, b.files = [f] ∧ maxChars < f.content.data.length) ∧
      catMap (fun b => b.files) (splitBatchGo name maxChars files acc chars idx)
        = acc ++ files
  | [], acc, chars, idx, hch, hinv => by
      simp only [splitBatchGo]
      by_cases hacc : acc ≠ []
      · rw [if_pos hacc]
        refine ⟨?_, by simp [catMap]⟩
        intro b hb
        simp only [List.mem_singleton] at hb
        subst hb
        exact hinv
      · rw [if_neg hacc]
        push_neg at hacc
        subst hacc
        exact ⟨by intro b hb; simp at hb, by simp [catMap]⟩
  | f :: rest, acc, chars, idx, hch, hinv => by
      simp only [splitBatchGo]
      by_cases hc : chars + f.content.data.length > maxChars ∧ acc ≠ []
      · rw [if_pos hc]
        have hrec := splitBatchGo_spec name maxChars rest [f]
          f.content.data.length (idx + 1)
          (by simp [filesChars])
          (by
            by_cases hf : f.content.data.length ≤ maxChars
            · left; simpa [filesChars] using hf
            · right; exact ⟨f, rfl, by omega⟩)
        constructor
        · intro b hb
          rcases List.mem_cons.mp hb with hE | hm
          · subst hE; exact hinv
          · exact hrec.1 b hm
        · simp only [catMap, hrec.2]
          simp
      · rw [if_neg hc]
        have hinv' : filesChars (acc ++ [f]) ≤ maxChars ∨
            ∃ g, acc ++ [f] = [g] ∧ maxChars < g.content.data.length := by
          by_cases hacc : acc = []
          · subst hacc
            by_cases hf : f.content.data.length ≤ maxChars
            · left; simpa [filesChars] using hf
            · right; exact ⟨f, by simp, by omega⟩
          · left
            have hle : chars + f.content.data.length ≤ maxChars := by
              by_contra hgt
              exact hc ⟨by omega, hacc⟩
            rw [filesChars_append, ← hch]
            simpa [filesChars] using hle
        have hrec := splitBatchGo_spec name maxChars rest (acc ++ [f])
          (chars + f.content.data.length) idx
          (by rw [filesChars_append, ← hch]; simp [filesChars])
          hinv'
        exact ⟨hrec.1, by rw [hrec.2]; simp⟩

theorem split_oversized_flatten (batches : List Batch) (maxChars : Nat) :
    catMap (fun b => b.files) (split_oversized_batches batches maxChars)
      = catMap (fun b => b.files) batches := by
  induction batches with
  | nil => rfl
  | cons b t ih =>
      show catMap (fun b => b.files)
          ((if filesChars b.files ≤ maxChars then [b]
            else splitBatchGo b.name maxChars b.files [] 0 1) ++
           split_oversized_batches t maxChars) = _
      rw [catMap_append]
      by_cases hb : filesChars b.files ≤ maxChars
      · rw [if_pos hb]
        simp [catMap, ih]
      · rw [if_neg hb]
        have hspec := splitBatchGo_spec b.name maxChars b.files [] 0 1
          (by simp [filesChars]) (Or.inl (by simp [filesChars]))
        rw [hspec.2, ih]
        simp [catMap]

/-- C2 — Budget invariant: every batch produced by the oversizing pass is
within the budget, except that a file longer than the budget stands alone in
a one-file sub-batch; and the concatenation of the output batches' file lists
is exactly the concatenation of the input batches' file lists (original
order, nothing dropped, nothing duplicated). -/
theorem split_oversized_budget (batches : List Batch) (maxChars : Nat)
    (hpos : 0 < maxChars) :
    (∀ b ∈ split_oversized_batches batches maxChars,
        filesChars b.files ≤ maxChars ∨
        ∃ f, b.files = [f] ∧ maxChars < f.content.data.length) ∧
    catMap (fun b => b.files) (split_oversized_batches batches maxChars)
      = catMap (fun b => b.files) batches := by
  refine ⟨?_, split_oversized_flatten batches maxChars⟩
  intro b hb
  rw [split_oversized_batches, mem_catMap] at hb
  obtain ⟨b0, hb0, hbmem⟩ := hb
  by_cases h0 : filesChars b0.files ≤ maxChars
  · rw [if_pos h0] at hbmem
    simp only [List.mem_singleton] at hbmem
    subst hbmem
    exact Or.inl h0
  · rw [if_neg h0] at hbmem
    exact (splitBatchGo_spec b0.name maxChars b0.files [] 0 1
      (by simp [filesChars]) (Or.inl (by simp [filesChars]))).1 b hbmem

/-- Batch list used to witness C2: a 17-character batch against budget 5,
containing two oversized files. -/
def c2Batches : List Batch :=
  [⟨"B", [⟨"a", "123456"⟩, ⟨"b", "12"⟩, ⟨"c", "1234567"⟩, ⟨"d", "12"⟩]⟩]

theorem split_oversized_budget_witness :
    0 < 5 ∧
    ((∀ b ∈ split_oversized_batches c2Batches 5,
        filesChars b.files ≤ 5 ∨
        ∃ f, b.files = [f] ∧ 5 < f.content.data.length) ∧
     catMap (fun b => b.files) (split_oversized_batches c2Batches 5)
       = catMap (fun b => b.files) c2Batches) :=
  ⟨by decide, split_oversized_budget c2Batches 5 (by decide)⟩

theorem mem_insertPathFile {pr : String × FileRec} {m : List (String × FileRec)}
    {f : FileRec} (h : pr ∈ insertPathFile m f) : pr ∈ m ∨ pr.2 = f := by
  unfold insertPathFile at h
  by_cases hany : m.any (fun pr => pr.1 = f.path)
  · rw [if_pos hany] at h
    obtain ⟨q, hq, hqe⟩ := List.mem_map.mp h
    by_cases hk : q.1 = f.path
    · rw [if_pos hk] at hqe
      right
      rw [← hqe]
    · rw [if_neg hk] at hqe
      left
      rwa [← hqe]
  · rw [if_neg hany] at h
    rcases List.mem_append.mp h with hm | hone
    · exact Or.inl hm
    · right
      simp only [List.mem_singleton] at hone
      rw [hone]

theorem mem_foldl_insertPathFile {pr : String × FileRec} :
    ∀ (l : List FileRec) (m : List (String × FileRec)),
      pr ∈ l.foldl insertPathFile m → pr ∈ m ∨ pr.2 ∈ l
  | [], m, h => Or.inl h
  | f :: t, m, h => by
      rcases mem_foldl_insertPathFile t (insertPathFile m f) h with hm | ht
      · rcases mem_insertPathFile hm with hm2 | he
        · exact Or.inl hm2
        · exact Or.inr (he ▸ List.mem_cons_self ..)
      · exact Or.inr (List.mem_cons_of_mem _ ht)

theorem value_mem_buildPathToFile {files : List FileRec}
    {pr : String × FileRec} (h : pr ∈ buildPathToFile files) : pr.2 ∈ files := by
  rcases mem_foldl_insertPathFile files [] h with hm | hv
  · cases hm
  · exact hv

theorem resolvePlanPath_mem {files : List FileRec} {fp : String} {f : FileRec}
    (h : resolvePlanPath (buildPathToFile files) fp = some f) : f ∈ files := by
  unfold resolvePlanPath at h
  cases hfind : lookupPath (buildPathToFile files) fp with
  | some q =>
      rw [hfind] at h
      injection h with h
      subst h
      unfold lookupPath at hfind
      cases hfind2 : (buildPathToFile files).find? (fun pr => pr.1 = fp) with
      | some q2 =>
          rw [hfind2] at hfind
          injection hfind with hfind
          subst hfind
          exact value_mem_buildPathToFile (List.mem_of_find?_eq_some hfind2)
      | none => rw [hfind2] at hfind; cases hfind
  | none =>
      rw [hfind] at h
      unfold fuzzyResolve at h
      cases hfind2 : (buildPathToFile files).find? (fun pr =>
          endsWithS pr.1 fp || endsWithS fp pr.1 ||
          basenameS pr.1 = basenameS fp) with
      | some q2 =>
          rw [hfind2] at h
          injection h with h
          subst h
          exact value_mem_buildPathToFile (List.mem_of_find?_eq_some hfind2)
      | none => rw [hfind2] at h; cases h

/-- Invariant of `_parse_batches_from_plan`'s line loop: every file resolved
into a batch is a record of the input file list. -/
def planInv (files : List FileRec) (st : List Batch × Option Batch) : Prop :=
  (∀ b ∈ st.1, ∀ g ∈ b.files, g ∈ files) ∧
  (∀ cb, st.2 = some cb → ∀ g ∈ cb.files, g ∈ files)

theorem mem_planFlush {st : List Batch × Option Batch} {b : Batch}
    (h : b ∈ planFlush st) : b ∈ st.1 ∨ ∃ cb, st.2 = some cb ∧ b = cb := by
  obtain ⟨bs, ocb⟩ := st
  cases ocb with
  | some cb =>
      simp only [planFlush] at h
      by_cases hne : cb.files ≠ []
      · rw [if_pos hne] at h
        rcases List.mem_append.mp h with h1 | h2
        · exact Or.inl h1
        · simp only [List.mem_singleton] at h2
          exact Or.inr ⟨cb, rfl, h2⟩
      · rw [if_neg hne] at h
        exact Or.inl h
  | none =>
      simp only [planFlush] at h
      exact Or.inl h

theorem planFlush_inv {files : List FileRec} {st : List Batch × Option Batch}
    (hst : planInv files st) :
    ∀ b ∈ planFlush st, ∀ g ∈ b.files, g ∈ files := by
  intro b hb g hg
  rcases mem_planFlush hb with h1 | ⟨cb, hcb, hE⟩
  · exact hst.1 b h1 g hg
  · exact hst.2 cb hcb g (hE ▸ hg)

theorem planLineStep_inv {files : List FileRec} {st : List Batch × Option Batch}
    (line : List Char) (hst : planInv files st) :
    planInv files (planLineStep (buildPathToFile files) st line) := by
  obtain ⟨bs, ocb⟩ := st
  unfold planLineStep
  cases hh : matchBatchHeader (pyStripL line) with
  | some grp =>
      refine ⟨?_, ?_⟩
      · intro b hb g hg
        exact planFlush_inv hst b hb g hg
      · intro cb hcb g hg
        simp only at hcb
        injection hcb with hcb
        subst hcb
        simp at hg
  | none =>
      cases ocb with
      | some cb =>
          simp only
          by_cases hdash : ("- ".data).isPrefixOf (pyStripL line)
          · rw [if_pos hdash]
            cases hres : resolvePlanPath (buildPathToFile files)
                (planLinePath line) with
            | some f =>
                refine ⟨hst.1, ?_⟩
                intro cb2 hcb2 g hg
                simp only at hcb2
                injection hcb2 with hcb2
                subst hcb2
                simp only [List.mem_append, List.mem_singleton] at hg
                rcases hg with hg | hg
                · exact hst.2 cb rfl g hg
                · subst hg
                  exact resolvePlanPath_mem hres
            | none => exact hst
          · rw [if_neg hdash]
            exact hst
      | none => exact hst

theorem foldl_planLineStep_inv (files : List FileRec) :
    ∀ (lines : List (List Char)) (st : List Batch × Option Batch),
      planInv files st →
      planInv files (lines.foldl (planLineStep (buildPathToFile files)) st)
  | [], _, hst => hst
  | line :: rest, _, hst =>
      foldl_planLineStep_inv files rest _ (planLineStep_inv line hst)

theorem parse_batches_subset {plan : String} {files : List FileRec} :
    ∀ b ∈ parse_batches_from_plan plan files, ∀ g ∈ b.files, g ∈ files := by
  intro b hb g hg
  unfold parse_batches_from_plan at hb
  by_cases hplan : plan = ""
  · rw [if_pos hplan] at hb
    cases hb
  · rw [if_neg hplan] at hb
    have hinv := foldl_planLineStep_inv files (splitOnNl plan.data)
      ([], none)
      ⟨(by intro b hb; cases hb), (by intro cb hcb; cases hcb)⟩
    exact planFlush_inv hinv b hb g hg

theorem mem_val_insertDirGroup {m : List (String × List FileRec)} {key : String}
    {f : FileRec} {pr : String × List FileRec} {g : FileRec}
    (h : pr ∈ insertDirGroup m key f) (hg : g ∈ pr.2) :
    (∃ q ∈ m, g ∈ q.2) ∨ g = f := by
  unfold insertDirGroup at h
  by_cases hany : m.any (fun pr => pr.1 = key)
  · rw [if_pos hany] at h
    obtain ⟨q, hq, hqe⟩ := List.mem_map.mp h
    subst hqe
    by_cases hk : q.1 = key
    · simp only [if_pos hk] at hg
      rcases List.mem_append.mp hg with h1 | h2
      · exact Or.inl ⟨q, hq, h1⟩
      · simp only [List.mem_singleton] at h2
        exact Or.inr h2
    · simp only [if_neg hk] at hg
      exact Or.inl ⟨q, hq, hg⟩
  · rw [if_neg hany] at h
    rcases List.mem_append.mp h with h1 | h2
    · exact Or.inl ⟨pr, h1, hg⟩
    · simp only [List.mem_singleton] at h2
      subst h2
      simp only [List.mem_singleton] at hg
      exact Or.inr hg

theorem insertDirGroup_preserve {m : List (String × List FileRec)} {key : String}
    {f g : FileRec} (h : ∃ pr ∈ m, g ∈ pr.2) :
    ∃ pr ∈ insertDirGroup m key f, g ∈ pr.2 := by
  obtain ⟨pr, hpr, hg⟩ := h
  unfold insertDirGroup
  by_cases hany : m.any (fun pr => pr.1 = key)
  · rw [if_pos hany]
    refine ⟨if pr.1 = key then (pr.1, pr.2 ++ [f]) else pr,
      List.mem_map.mpr ⟨pr, hpr, rfl⟩, ?_⟩
    by_cases hk : pr.1 = key
    · simp only [if_pos hk]
      exact List.mem_append.mpr (Or.inl hg)
    · simp only [if_neg hk]
      exact hg
  · rw [if_neg hany]
    exact ⟨pr, List.mem_append.mpr (Or.inl hpr), hg⟩

theorem insertDirGroup_adds {m : List (String × List FileRec)} {key : String}
    {f : FileRec} : ∃ pr ∈ insertDirGroup m key f, f ∈ pr.2 := by
  unfold insertDirGroup
  by_cases hany : m.any (fun pr => pr.1 = key)
  · rw [if_pos hany]
    obtain ⟨q, hq, hqk⟩ := List.any_eq_true.mp hany
    have hk : q.1 = key := by simpa using hqk
    refine ⟨(q.1, q.2 ++ [f]), ?_, by simp⟩
    refine List.mem_map.mpr ⟨q, hq, ?_⟩
    simp [hk]
  · rw [if_neg hany]
    exact ⟨(key, [f]), by simp, by simp⟩

/-- A file is covered by the running state of the directory classification. -/
def dirCover (f : FileRec) (st : List FileRec × List (String × List FileRec)) :
    Prop :=
  f ∈ st.1 ∨ ∃ pr ∈ st.2, f ∈ pr.2

theorem dirGroupStep_preserve {f : FileRec}
    {st : List FileRec × List (String × List FileRec)} (g : FileRec)
    (h : dirCover f st) : dirCover f (dirGroupStep st g) := by
  unfold dirGroupStep
  by_cases hcfg : isConfigFile g = true
  · rw [if_pos hcfg]
    rcases h with h1 | h2
    · exact Or.inl (List.mem_append.mpr (Or.inl h1))
    · exact Or.inr h2
  · rw [if_neg hcfg]
    rcases h with h1 | h2
    · exact Or.inl h1
    · exact Or.inr (insertDirGroup_preserve h2)

theorem dirGroupStep_adds (st : List FileRec × List (String × List FileRec))
    (f : FileRec) : dirCover f (dirGroupStep st f) := by
  unfold dirGroupStep
  by_cases hcfg : isConfigFile f = true
  · rw [if_pos hcfg]
    exact Or.inl (by simp)
  · rw [if_neg hcfg]
    exact Or.inr insertDirGroup_adds

theorem foldl_dirGroupStep_cover {f : FileRec} :
    ∀ (l : List FileRec) (st : List FileRec × List (String × List FileRec)),
      f ∈ l ∨ dirCover f st → dirCover f (l.foldl dirGroupStep st)
  | [], _, h => by
      rcases h with h | h
      · cases h
      · exact h
  | g :: t, st, h => by
      apply foldl_dirGroupStep_cover t
      rcases h with hmem | hcov
      · rcases List.mem_cons.mp hmem with hE | ht
        · right
          exact hE ▸ dirGroupStep_adds st g
        · left
          exact ht
      · right
        exact dirGroupStep_preserve g hcov

/-- Every record held by the classification state is an input record. -/
def dirSub (files : List FileRec)
    (st : List FileRec × List (String × List FileRec)) : Prop :=
  (∀ g ∈ st.1, g ∈ files) ∧ (∀ pr ∈ st.2, ∀ g ∈ pr.2, g ∈ files)

theorem dirGroupStep_sub {files : List FileRec}
    {st : List FileRec × List (String × List FileRec)} {g : FileRec}
    (hgf : g ∈ files) (h : dirSub files st) :
    dirSub files (dirGroupStep st g) := by
  unfold dirGroupStep
  by_cases hcfg : isConfigFile g = true
  · rw [if_pos hcfg]
    refine ⟨?_, h.2⟩
    intro x hx
    rcases List.mem_append.mp hx with h1 | h2
    · exact h.1 x h1
    · simp only [List.mem_singleton] at h2
      exact h2 ▸ hgf
  · rw [if_neg hcfg]
    refine ⟨h.1, ?_⟩
    intro pr hpr x hx
    rcases mem_val_insertDirGroup hpr hx with ⟨q, hq, hxq⟩ | hE
    · exact h.2 q hq x hxq
    · exact hE ▸ hgf

theorem foldl_dirGroupStep_sub {files : List FileRec} :
    ∀ (l : List FileRec) (st : List FileRec × List (String × List FileRec)),
      (∀ g ∈ l, g ∈ files) → dirSub files st →
      dirSub files (l.foldl dirGroupStep st)
  | [], _, _, h => h
  | g :: t, st, hl, h =>
      foldl_dirGroupStep_sub t _ (fun x hx => hl x (List.mem_cons_of_mem _ hx))
        (dirGroupStep_sub (hl g (List.mem_cons_self ..)) h)

theorem mem_insertSortedStr {x y : String × List FileRec} :
    ∀ (l : List (String × List FileRec)),
      x ∈ insertSortedStr y l ↔ x = y ∨ x ∈ l
  | [] => by simp [insertSortedStr]
  | z :: t => by
      simp only [insertSortedStr]
      by_cases hlt : strLtB y.1 z.1 = true
      · rw [if_pos hlt]
        exact List.mem_cons
      · rw [if_neg hlt]
        rw [List.mem_cons, mem_insertSortedStr t, List.mem_cons]
        tauto

theorem mem_sortByKey {x : String × List FileRec} :
    ∀ (l : List (String × List FileRec)), x ∈ sortByKey l ↔ x ∈ l
  | [] => Iff.rfl
  | y :: t => by
      show x ∈ insertSortedStr y (sortByKey t) ↔ _
      rw [mem_insertSortedStr (sortByKey t), mem_sortByKey t, List.mem_cons]

theorem mem_split_oversized_iff {bs : List Batch} {mc : Nat} {g : FileRec} :
    (∃ b ∈ split_oversized_batches bs mc, g ∈ b.files) ↔ ∃ b ∈ bs, g ∈ b.files := by
  constructor
  · rintro ⟨b, hb, hg⟩
    have hmem : g ∈ catMap (fun b => b.files) (split_oversized_batches bs mc) :=
      mem_catMap.mpr ⟨b, hb, hg⟩
    rw [split_oversized_flatten] at hmem
    exact mem_catMap.mp hmem
  · rintro ⟨b, hb, hg⟩
    have hmem : g ∈ catMap (fun b => b.files) bs := mem_catMap.mpr ⟨b, hb, hg⟩
    rw [← split_oversized_flatten bs mc] at hmem
    exact mem_catMap.mp hmem

theorem mem_dirBaseBatches {files : List FileRec} {g : FileRec} :
    (∃ b ∈ dirBaseBatches files, g ∈ b.files) ↔ g ∈ files := by
  constructor
  · rintro ⟨b, hb, hg⟩
    have hsub : dirSub files (dirFold files) :=
      foldl_dirGroupStep_sub files ([], []) (fun x hx => hx)
        ⟨(by intro x hx; cases hx), (by intro pr hpr; cases hpr)⟩
    unfold dirBaseBatches at hb
    rcases List.mem_append.mp hb with h1 | h2
    · by_cases hne : (dirFold files).1 ≠ []
      · rw [if_pos hne] at h1
        simp only [List.mem_singleton] at h1
        subst h1
        exact hsub.1 g hg
      · rw [if_neg hne] at h1
        cases h1
    · obtain ⟨pr, hpr, hE⟩ := List.mem_map.mp h2
      subst hE
      exact hsub.2 pr ((mem_sortByKey _).mp hpr) g hg
  · intro hgf
    have hcov : dirCover g (dirFold files) :=
      foldl_dirGroupStep_cover files ([], []) (Or.inl hgf)
    rcases hcov with h1 | ⟨pr, hpr, hg⟩
    · refine ⟨⟨"Config & Dependencies", (dirFold files).1⟩, ?_, h1⟩
      unfold dirBaseBatches
      apply List.mem_append.mpr
      left
      have hne : (dirFold files).1 ≠ [] := by
        intro h0
        rw [h0] at h1
        cases h1
      rw [if_pos hne]
      simp
    · refine ⟨⟨dirBatchName pr.1, pr.2⟩, ?_, hg⟩
      unfold dirBaseBatches
      apply List.mem_append.mpr
      right
      exact List.mem_map.mpr ⟨pr, (mem_sortByKey _).mpr hpr, rfl⟩

/-- C1 (amended) — Batch coverage as union: for every file list, plan text and
budget, the union of the paths over the returned batches is exactly the set of
input paths — no file is ever missing.  (Exactly-once fails; see the
counterexample: a path listed under two plan headers lands in two batches.) -/
theorem batch_coverage_union (files : List FileRec) (plan : String)
    (maxChars : Nat) (p : String) :
    (∃ b ∈ group_files_into_batches files plan maxChars,
        ∃ g ∈ b.files, g.path = p) ↔
    ∃ f ∈ files, f.path = p := by
  unfold group_files_into_batches
  by_cases hbp : parse_batches_from_plan plan files ≠ []
  · rw [if_pos hbp]
    by_cases hmf : planMissingFiles files plan = []
    · rw [if_pos hmf]
      constructor
      · rintro ⟨b, hb, g, hg, hgp⟩
        obtain ⟨b0, hb0, hg0⟩ := mem_split_oversized_iff.mp ⟨b, hb, hg⟩
        exact ⟨g, parse_batches_subset b0 hb0 g hg0, hgp⟩
      · rintro ⟨f, hf, hfp⟩
        have hassigned : f.path ∈ assignedPaths files plan := by
          by_contra hna
          have hmem : f ∈ planMissingFiles files plan := by
            unfold planMissingFiles
            exact List.mem_filter.mpr ⟨hf, by simpa using hna⟩
          rw [hmf] at hmem
          cases hmem
        rw [assignedPaths, mem_catMap] at hassigned
        obtain ⟨b0, hb0, hpm⟩ := hassigned
        obtain ⟨g, hg, hgp⟩ := List.mem_map.mp hpm
        obtain ⟨b, hb, hg2⟩ := mem_split_oversized_iff.mpr ⟨b0, hb0, hg⟩
        exact ⟨b, hb, g, hg2, hgp.trans hfp⟩
    · rw [if_neg hmf]
      constructor
      · rintro ⟨b, hb, g, hg, hgp⟩
        obtain ⟨b0, hb0, hg0⟩ := mem_split_oversized_iff.mp ⟨b, hb, hg⟩
        rcases List.mem_append.mp hb0 with h1 | h2
        · exact ⟨g, parse_batches_subset b0 h1 g hg0, hgp⟩
        · simp only [List.mem_singleton] at h2
          subst h2
          have hg1 : g ∈ planMissingFiles files plan := hg0
          unfold planMissingFiles at hg1
          exact ⟨g, (List.mem_filter.mp hg1).1, hgp⟩
      · rintro ⟨f, hf, hfp⟩
        by_cases hassigned : f.path ∈ assignedPaths files plan
        · rw [assignedPaths, mem_catMap] at hassigned
          obtain ⟨b0, hb0, hpm⟩ := hassigned
          obtain ⟨g, hg, hgp⟩ := List.mem_map.mp hpm
          obtain ⟨b, hb, hg2⟩ := mem_split_oversized_iff.mpr
            ⟨b0, List.mem_append.mpr (Or.inl hb0), hg⟩
          exact ⟨b, hb, g, hg2, hgp.trans hfp⟩
        · have hmem : f ∈ planMissingFiles files plan := by
            unfold planMissingFiles
            exact List.mem_filter.mpr ⟨hf, by simpa using hassigned⟩
          obtain ⟨b, hb, hg2⟩ := mem_split_oversized_iff.mpr
            ⟨⟨"Remaining Files", planMissingFiles files plan⟩,
             List.mem_append.mpr (Or.inr (List.mem_singleton.mpr rfl)), hmem⟩
          exact ⟨b, hb, f, hg2, hfp⟩
  · rw [if_neg hbp]
    constructor
    · rintro ⟨b, hb, g, hg, hgp⟩
      have hgf : g ∈ files :=
        mem_dirBaseBatches.mp (mem_split_oversized_iff.mp ⟨b, hb, hg⟩)
      exact ⟨g, hgf, hgp⟩
    · rintro ⟨f, hf, hfp⟩
      obtain ⟨b, hb, hg⟩ := mem_split_oversized_iff.mpr (mem_dirBaseBatches.mpr hf)
      exact ⟨b, hb, f, hg, hfp⟩

/-- C1 counterexample — a plan that lists `a.py` under two batch headers makes
`_group_files_into_batches` place the file in two batches, refuting "each
input file appears in exactly one batch". -/
theorem batch_coverage_counterexample :
    (group_files_into_batches [⟨"a.py", "x"⟩]
        "BATCH 1 - A:\n- a.py\nBATCH 2 - B:\n- a.py" 1000).countP
      (fun b => b.files.any (fun f => f.path = "a.py")) = 2 := by
  decide

/-! ## `_detect_errors` (lazarus_agent.py lines 2866-2944)

An ordered rule list tried with case-insensitive `re.search`, first match
wins; the context is the slice from 200 before the match start to 500 after
the match end, clipped.  All but four patterns are literals; the four
non-literal ones (`error TS\d+:`, `Command exited with code [^0]`,
`mkdir.*failed`, `ECONNREFUSED.*27017`) get dedicated position matchers whose
greedy runs are deterministic (`\d+` is followed by a non-digit requirement,
`.*` without DOTALL backtracks to the last in-line occurrence of the literal
that follows it). -/

/-- `re.search` for a position matcher `f` (returning the match length at a
position): scan positions left to right, including the end-of-text position,
and return (start, length) of the first match. -/
def scanPs (f : List Char → Option Nat) : List Char → Option (Nat × Nat)
  | [] => (f []).map (fun m => (0, m))
  | c :: t =>
      match f (c :: t) with
      | some m => some (0, m)
      | none => (scanPs f t).map (fun pr => (pr.1 + 1, pr.2))

/-- A literal pattern at the current position. -/
def litAt (pat : List Char) (l : List Char) : Option Nat :=
  if pat.isPrefixOf l then some pat.length else none

/-- `error TS\d+:` at the current position (over lowercased text). -/
def tsAt (l : List Char) : Option Nat :=
  match dropLit "error ts".data l with
  | none => none
  | some r =>
      let ds := r.takeWhile Char.isDigit
      if ds = [] then none
      else
        match r.drop ds.length with
        | c :: _ => if c = ':' then some (8 + ds.length + 1) else none
        | [] => none

/-- `Command exited with code [^0]` at the current position (lowercased). -/
def cmdExitAt (l : List Char) : Option Nat :=
  match dropLit "command exited with code ".data l with
  | none => none
  | some r =>
      match r with
      | c :: _ => if c ≠ '0' then some 26 else none
      | [] => none

/-- `<a>.*<b>` at the current position: `a` literally, then greedy `.` (not
across a newline) up to the last same-line occurrence of `b`. -/
def dotStarAt (a b : List Char) (l : List Char) : Option Nat :=
  match dropLit a l with
  | none => none
  | some r =>
      let seg := r.takeWhile (· ≠ '\n')
      match findLast b seg with
      | some j => some (a.length + j + b.length)
      | none => none

/-- The shape of one classifier rule's pattern. -/
inductive ErrPat where
  | lit (s : String)
  | tsErr
  | cmdExit
  | dotStar (a b : String)
deriving DecidableEq, Repr

/-- The position matcher of a rule (patterns are lowercased, the text is
lowercased by `detect_errors`, giving `re.IGNORECASE`). -/
def errPatAt : ErrPat → List Char → Option Nat
  | .lit s => litAt (lowerL s.data)
  | .tsErr => tsAt
  | .cmdExit => cmdExitAt
  | .dotStar a b => dotStarAt (lowerL a.data) (lowerL b.data)

/-- `re.search` of one rule: the (start, end) of its leftmost match. -/
def patMatch (p : ErrPat) (low : List Char) : Option (Nat × Nat) :=
  (scanPs (errPatAt p) low).map (fun pr => (pr.1, pr.1 + pr.2))

/-- The apostrophe as a one-character string (for the `can't open file`
pattern). -/
def aposStr : String := String.mk [squote]

/-- The classifier's rule list, in source order. -/
def errorPatterns : List (ErrPat × String) :=
  [ (.lit "Cannot find module", "NODE_MODULE_NOT_FOUND"),
    (.lit "Error: Cannot find module", "NODE_MODULE_NOT_FOUND"),
    (.lit "MODULE_NOT_FOUND", "NODE_MODULE_NOT_FOUND"),
    (.lit "node:internal/modules", "NODE_INTERNAL_ERROR"),
    (.lit "throw err;", "NODE_CRASH"),
    (.lit "ReferenceError:", "NODE_REFERENCE_ERROR"),
    (.lit "Error: listen EADDRINUSE", "NODE_PORT_IN_USE"),
    (.lit "ENOENT: no such file", "NODE_FILE_NOT_FOUND"),
    (.lit "SyntaxError: Unexpected", "NODE_SYNTAX_ERROR"),
    (.lit "Error: ENOENT", "NODE_FILE_NOT_FOUND"),
    (.lit "BACKEND_CRASH:", "BACKEND_CRASH"),
    (.lit "FATAL: Node.js Backend failed", "NODE_SERVER_CRASH"),
    (.lit "FATAL: Backend failed", "BACKEND_CRASH"),
    (.lit "Backend failed to start", "BACKEND_STARTUP_FAILED"),
    (.lit "No such file or directory", "FILE_NOT_FOUND"),
    (.lit ("can" ++ aposStr ++ "t open file"), "FILE_NOT_FOUND"),
    (.lit "FRONTEND BUILD FAILED", "FRONTEND_BUILD_ERROR"),
    (.lit "npm ERR!", "NPM_ERROR"),
    (.tsErr, "TYPESCRIPT_ERROR"),
    (.lit "SyntaxError:", "SYNTAX_ERROR"),
    (.lit "Module not found", "MODULE_NOT_FOUND"),
    (.lit "Sandbox Error:", "SANDBOX_ERROR"),
    (.cmdExit, "COMMAND_FAILED"),
    (.lit "syntax error near unexpected token", "BASH_SYNTAX_ERROR"),
    (.dotStar "mkdir" "failed", "MKDIR_ERROR"),
    (.lit "Permission denied", "PERMISSION_ERROR"),
    (.lit "ModuleNotFoundError:", "PYTHON_IMPORT_ERROR"),
    (.lit "ImportError:", "PYTHON_IMPORT_ERROR"),
    (.lit "IndentationError:", "PYTHON_SYNTAX_ERROR"),
    (.lit "NameError:", "PYTHON_NAME_ERROR"),
    (.lit "TypeError:", "PYTHON_TYPE_ERROR"),
    (.lit "FileNotFoundError:", "PYTHON_FILE_NOT_FOUND"),
    (.lit "ECONNREFUSED", "CONNECTION_ERROR"),
    (.lit "Failed to connect", "CONNECTION_ERROR"),
    (.lit "Backend connection failed", "BACKEND_ERROR"),
    (.lit "GENERATION FAILED", "GENERATION_ERROR"),
    (.lit "No files were generated", "EMPTY_GENERATION"),
    (.lit "MongoNetworkError", "DATABASE_CONNECTION_ERROR"),
    (.lit "MongoServerError", "DATABASE_ERROR"),
    (.dotStar "ECONNREFUSED" "27017", "MONGODB_CONNECTION_ERROR") ]

/-- First rule (in list order) whose pattern matches, with its match span. -/
def findFirstRule : List (ErrPat × String) → List Char → Option (String × Nat × Nat)
  | [], _ => none
  | (pat, ty) :: rest, low =>
      match patMatch pat low with
      | some (s, e) => some (ty, s, e)
      | none => findFirstRule rest low

/-- `_detect_errors` (lazarus_agent.py line 2866): `(detected, kind, context)`
with the context sliced 200 before and 500 after the match, clipped. -/
def detect_errors (logs : String) : Bool × String × String :=
  if logs.data = [] then (false, "", "")
  else
    match findFirstRule errorPatterns (lowerL logs.data) with
    | some (ty, s, e) =>
        (true, ty,
         String.mk ((logs.data.drop (s - 200)).take
           (min logs.data.length (e + 500) - (s - 200))))
    | none => (false, "", "")

theorem findFirstRule_spec :
    ∀ (rs : List (ErrPat × String)) (low : List Char) (i : Nat)
      (pat : ErrPat) (ty : String) (s e : Nat),
      rs[i]? = some (pat, ty) →
      patMatch pat low = some (s, e) →
      (∀ q ∈ rs.take i, patMatch q.1 low = none) →
      findFirstRule rs low = some (ty, s, e)
  | [], _, i, _, _, _, _, hi, _, _ => by simp at hi
  | (p0, t0) :: rest, low, i, pat, ty, s, e, hi, hm, hearlier => by
      cases i with
      | zero =>
          rw [List.getElem?_cons_zero] at hi
          injection hi with hi
          cases hi
          simp only [findFirstRule]
          rw [hm]
      | succ n =>
          have h0 : patMatch p0 low = none :=
            hearlier (p0, t0) (by simp [List.take_succ_cons])
          simp only [findFirstRule]
          rw [h0]
          apply findFirstRule_spec rest low n pat ty s e
          · simpa using hi
          · exact hm
          · intro q hq
            exact hearlier q (by simp [List.take_succ_cons, hq])

/-- C7 — Error classification priority: whenever rule `i` matches the log at
span `(s, e)` and no earlier-listed rule matches, `_detect_errors` reports
rule `i`'s kind and the context slice from 200 characters before the match
start to 500 after its end, clipped to the text. -/
theorem error_classification_first_match (logs : String) (i : Nat)
    (pat : ErrPat) (ty : String) (s e : Nat)
    (hne : logs.data ≠ [])
    (hi : errorPatterns[i]? = some (pat, ty))
    (hm : patMatch pat (lowerL logs.data) = some (s, e))
    (hearlier : ∀ q ∈ errorPatterns.take i, patMatch q.1 (lowerL logs.data) = none) :
    detect_errors logs =
      (true, ty,
       String.mk ((logs.data.drop (s - 200)).take
         (min logs.data.length (e + 500) - (s - 200)))) := by
  unfold detect_errors
  rw [if_neg hne,
    findFirstRule_spec errorPatterns (lowerL logs.data) i pat ty s e hi hm hearlier]

/-- Log used to witness C7: both the crash marker and the generic
file-not-found pattern occur; the crash marker is listed first. -/
def c7Log : String := "BACKEND_CRASH: No such file or directory"

theorem error_classification_first_match_witness :
    c7Log.data ≠ [] ∧
    detect_errors c7Log =
      (true, "BACKEND_CRASH",
       String.mk ((c7Log.data.drop (0 - 200)).take
         (min c7Log.data.length (14 + 500) - (0 - 200)))) :=
  ⟨by decide,
   error_classification_first_match c7Log 10 (.lit "BACKEND_CRASH:")
     "BACKEND_CRASH" 0 14 (by decide) (by decide) (by decide) (by decide)⟩

/-! ## The retry loop of `process_resurrection_stream`
(lazarus_agent.py lines 2706-2864)

The generation step (`generate_code_batched`) and the sandbox executor
(`execute_in_sandbox`) are the external collaborators of the orchestrator; the
loop is modelled as a function of two oracles: `gen`, giving each attempt's
generation outcome (success with files/entrypoint/runtime, a `GeminiAPIError`,
or any other exception), and `exec`, giving the sandbox log text of each
attempt.  The loop state carries the Python locals (`retry_count`,
`all_errors`, `sandbox_logs`, `files`, `entrypoint`, `runtime`) plus two
observability fields: the list of `time.sleep` durations performed and the
number of loop iterations run.  The `while retry_count <= MAX_RETRIES` loop is
given fuel `MAX_RETRIES + 2`, which is sufficient because `retry_count`
increases on every `continue`. -/

/-- One entry of `all_errors` (`{"attempt": ..., "type": ..., "message": ...}`). -/
structure AttemptError where
  attempt : Nat
  type : String
  message : String
deriving DecidableEq, Repr

/-- The outcome of one generation step, as seen by the orchestrator's `try`. -/
inductive GenOutcome where
  | ok (files : List PFile) (entrypoint : String) (runtime : String)
  | apiDown (msg : String)
  | exn (msg : String)
deriving Repr

/-- The loop-local state of `process_resurrection_stream`. -/
structure LoopSt where
  retryCount : Nat
  errors : List AttemptError
  sandboxLogs : Option String
  files : List PFile
  entrypoint : String
  runtime : String
  waits : List Nat
  attempts : Nat
deriving DecidableEq, Repr

/-- `MAX_RETRIES = 3` (lazarus_agent.py line 2707). -/
def maxRetries : Nat := 3

/-- The locals before the first iteration. -/
def initSt : LoopSt :=
  ⟨0, [], none, [], "modernized_stack/backend/main.py", "", [], 0⟩

/-- The `len(files) == 1 and files[0]["filename"] == "error.log"` sentinel. -/
def isErrorLogSentinel (fs : List PFile) : Bool :=
  match fs with
  | [f] => decide (f.filename = "error.log")
  | _ => false

/-- The message of the sentinel-rejection exception. -/
def sentinelMsg (fs : List PFile) : String :=
  match fs with
  | f :: _ =>
      "CODE GENERATION FAILED: Only error.log produced. Content: " ++
        String.mk (f.content.data.take 200)
  | [] => ""

/-- The generic `except Exception` handler: record an EXCEPTION attempt
error; with retries left, sleep 3 seconds and loop, else break with a FATAL
log. -/
def exnStep (s : LoopSt) (m : String) : Sum LoopSt LoopSt :=
  let s1 := { s with errors := s.errors ++ [AttemptError.mk (s.retryCount + 1) "EXCEPTION" m] }
  if s1.retryCount < maxRetries then
    Sum.inl { s1 with
      sandboxLogs := some ("EXCEPTION: " ++ m),
      waits := s1.waits ++ [3],
      retryCount := s1.retryCount + 1 }
  else Sum.inr { s1 with sandboxLogs := some ("FATAL ERROR: " ++ m) }

/-- The `except GeminiAPIError` handler: record a GEMINI_API_DOWN attempt
error; with retries left, sleep `15 * (retry_count + 1)` seconds and loop,
else break with a FATAL log. -/
def apiDownStep (s : LoopSt) (m : String) : Sum LoopSt LoopSt :=
  let s1 := { s with
    errors := s.errors ++ [AttemptError.mk (s.retryCount + 1) "GEMINI_API_DOWN" m] }
  if s1.retryCount < maxRetries then
    Sum.inl { s1 with
      waits := s1.waits ++ [15 * (s1.retryCount + 1)],
      sandboxLogs := some ("GEMINI_API_ERROR: " ++ m),
      retryCount := s1.retryCount + 1 }
  else Sum.inr { s1 with
    sandboxLogs := some ("FATAL: Gemini API unreachable: " ++ m) }

/-- The successful-generation path of one iteration: store the code data,
validate it (empty output and the error.log sentinel raise, landing in the
generic handler), execute in the sandbox, classify the log, and retry or stop;
classified content errors retry with no sleep. -/
def okStep (exec : Nat → String) (s : LoopSt) (fs : List PFile)
    (ep rt : String) : Sum LoopSt LoopSt :=
  let s1 := { s with files := fs, entrypoint := ep, runtime := rt }
  if fs = [] then
    exnStep s1 "CODE GENERATION FAILED: No files were generated"
  else if isErrorLogSentinel fs then exnStep s1 (sentinelMsg fs)
  else
    let logs := exec s1.retryCount
    let s2 := { s1 with sandboxLogs := some logs }
    let d := detect_errors logs
    if d.1 then
      let s3 := { s2 with
        errors := s2.errors ++ [AttemptError.mk (s2.retryCount + 1) d.2.1 d.2.2] }
      if s3.retryCount < maxRetries then
        Sum.inl { s3 with retryCount := s3.retryCount + 1 }
      else Sum.inr s3
    else Sum.inr s2

/-- One iteration of the retry loop (`Sum.inl` = `continue`,
`Sum.inr` = `break`). -/
def loopBody (gen : Nat → GenOutcome) (exec : Nat → String) (s : LoopSt) :
    Sum LoopSt LoopSt :=
  let s0 := { s with attempts := s.attempts + 1 }
  match gen s.retryCount with
  | .ok fs ep rt => okStep exec s0 fs ep rt
  | .apiDown m => apiDownStep s0 m
  | .exn m => exnStep s0 m

/-- The `while retry_count <= MAX_RETRIES` loop, fuelled. -/
def loopGo (gen : Nat → GenOutcome) (exec : Nat → String) :
    Nat → LoopSt → LoopSt
  | 0, s => s
  | fuel + 1, s =>
      if s.retryCount ≤ maxRetries then
        match loopBody gen exec s with
        | Sum.inl s2 => loopGo gen exec fuel s2
        | Sum.inr s2 => s2
      else s

/-- The whole retry loop from the initial locals. -/
def runLoop (gen : Nat → GenOutcome) (exec : Nat → String) : LoopSt :=
  loopGo gen exec (maxRetries + 2) initSt

/-- `re.search` of `\[PREVIEW_URL\] (https://[^\s]+)` at one position. -/
def previewUrlAt (l : List Char) : Option String :=
  match dropLit "[PREVIEW_URL] https://".data l with
  | none => none
  | some r =>
      let run := r.takeWhile (fun c => ¬ pyIsSpace c)
      if run = [] then none else some ("https://" ++ String.mk run)

/-- Leftmost preview-URL match in the final sandbox logs. -/
def findPreviewUrlGo : List Char → Option String
  | [] => none
  | c :: t =>
      match previewUrlAt (c :: t) with
      | some u => some u
      | none => findPreviewUrlGo t

/-- The preview extraction after the loop: a live URL from the logs if
present, else the content of the first artifact whose name contains
`preview.html`. -/
def computePreview (logs : Option String) (files : List PFile) : String :=
  let p :=
    match findPreviewUrlGo (logs.getD "").data with
    | some u => u
    | none => ""
  match files.find? (fun f => containsS f.filename "preview.html") with
  | some f => if ¬ startsWithS p "http" then f.content else p
  | none => p

/-- The status determination (lazarus_agent.py lines 2846-2851): `Fallback`
only when fallback mode was engaged or the final logs contain one of three
substrings; otherwise `Resurrected` (the live-URL branch re-assigns the same
value). -/
def determineStatus (fallbackMode : Bool) (logs : Option String)
    (preview : String) : String :=
  let bad :=
    match logs with
    | some l =>
        decide (l ≠ "") &&
          (containsS l "Sandbox Error" || containsS l "BUILD FAILED" ||
           containsS l "FATAL ERROR")
    | none => false
  if fallbackMode || bad then "Fallback"
  else if startsWithS preview "http" then "Resurrected"
  else "Resurrected"

/-- The terminal `result` event's payload. -/
structure RunResult where
  artifacts : List PFile
  preview : String
  status : String
  retryCount : Nat
  errors : List AttemptError
  attempts : Nat
deriving DecidableEq, Repr

/-- `process_resurrection_stream`'s generation/execution/retry phase and
terminal result event, as a function of the two collaborator oracles and the
fallback-mode flag set during planning. -/
def process_resurrection_stream (gen : Nat → GenOutcome) (exec : Nat → String)
    (fallbackMode : Bool) : RunResult :=
  let s := runLoop gen exec
  let preview := computePreview s.sandboxLogs s.files
  ⟨s.files, preview, determineStatus fallbackMode s.sandboxLogs preview,
   s.retryCount, s.errors, s.attempts⟩

/-- The state after a retried content-level failure: one more attempt, one
more error, the same shared retry counter incremented, and no wait recorded. -/
def contentNextSt (s : LoopSt) (fs : List PFile) (ep rt logs ty ctx : String) :
    LoopSt :=
  { s with
    attempts := s.attempts + 1,
    files := fs, entrypoint := ep, runtime := rt,
    sandboxLogs := some logs,
    errors := s.errors ++ [AttemptError.mk (s.retryCount + 1) ty ctx],
    retryCount := s.retryCount + 1 }

/-- The state after the final (budget-exhausted) content-level failure. -/
def contentBreakSt (s : LoopSt) (fs : List PFile) (ep rt logs ty ctx : String) :
    LoopSt :=
  { s with
    attempts := s.attempts + 1,
    files := fs, entrypoint := ep, runtime := rt,
    sandboxLogs := some logs,
    errors := s.errors ++ [AttemptError.mk (s.retryCount + 1) ty ctx] }

/-- The state after a retried `GeminiAPIError`: one more attempt, a
GEMINI_API_DOWN error, a `15 * (attempt number)`-second wait, and the same
shared retry counter incremented. -/
def apiDownNextSt (s : LoopSt) (m : String) : LoopSt :=
  { s with
    attempts := s.attempts + 1,
    errors := s.errors ++ [AttemptError.mk (s.retryCount + 1) "GEMINI_API_DOWN" m],
    waits := s.waits ++ [15 * (s.retryCount + 1)],
    sandboxLogs := some ("GEMINI_API_ERROR: " ++ m),
    retryCount := s.retryCount + 1 }

theorem loopGo_content_step (gen : Nat → GenOutcome) (exec : Nat → String)
    {fuel fuel' : Nat} (hfuel : fuel = fuel' + 1) (s : LoopSt)
    {fs : List PFile} {ep rt ty ctx : String}
    (hgen : gen s.retryCount = .ok fs ep rt)
    (hfs : fs ≠ []) (hsent : isErrorLogSentinel fs = false)
    (hdet : detect_errors (exec s.retryCount) = (true, ty, ctx))
    (hlt : s.retryCount < maxRetries) :
    loopGo gen exec fuel s =
      loopGo gen exec fuel'
        (contentNextSt s fs ep rt (exec s.retryCount) ty ctx) := by
  subst hfuel
  have hle : s.retryCount ≤ maxRetries := Nat.le_of_lt hlt
  simp only [loopGo, if_pos hle, loopBody, hgen, okStep, exnStep, hfs, hsent,
    hdet, contentNextSt]
  simp [hfs, hlt]

theorem loopGo_content_break (gen : Nat → GenOutcome) (exec : Nat → String)
    {fuel fuel' : Nat} (hfuel : fuel = fuel' + 1) (s : LoopSt)
    {fs : List PFile} {ep rt ty ctx : String}
    (hgen : gen s.retryCount = .ok fs ep rt)
    (hfs : fs ≠ []) (hsent : isErrorLogSentinel fs = false)
    (hdet : detect_errors (exec s.retryCount) = (true, ty, ctx))
    (hle : s.retryCount ≤ maxRetries) (hnlt : ¬ s.retryCount < maxRetries) :
    loopGo gen exec fuel s =
      contentBreakSt s fs ep rt (exec s.retryCount) ty ctx := by
  subst hfuel
  simp only [loopGo, if_pos hle, loopBody, hgen, okStep, exnStep, hfs, hsent,
    hdet, contentBreakSt]
  simp [hfs, hnlt]

theorem loopGo_apiDown_step (gen : Nat → GenOutcome) (exec : Nat → String)
    {fuel fuel' : Nat} (hfuel : fuel = fuel' + 1) (s : LoopSt) {m : String}
    (hgen : gen s.retryCount = .apiDown m)
    (hlt : s.retryCount < maxRetries) :
    loopGo gen exec fuel s = loopGo gen exec fuel' (apiDownNextSt s m) := by
  subst hfuel
  have hle : s.retryCount ≤ maxRetries := Nat.le_of_lt hlt
  simp only [loopGo, if_pos hle, loopBody, hgen, apiDownStep, apiDownNextSt]
  simp [hlt]

/-- The log-content condition that makes the final status `Fallback`. -/
def logsIndicateFallback (l : String) : Bool :=
  containsS l "Sandbox Error" || containsS l "BUILD FAILED" ||
  containsS l "FATAL ERROR"

theorem detect_errors_of_empty : detect_errors "" = (false, "", "") := rfl

/-- C3 (amended) — Retry termination: with generation always succeeding and
the sandbox reporting the same classified error on every attempt, the loop
runs exactly `MAX_RETRIES + 1` attempts, the terminal result's errors list has
exactly that length, and `retry_count` ends at `MAX_RETRIES`; but the status
is `"Fallback"` only when fallback mode was engaged during planning or the
final log text contains `"Sandbox Error"`, `"BUILD FAILED"` or
`"FATAL ERROR"` — otherwise it is reported as `"Resurrected"` despite the
exhausted budget (see the counterexample). -/
theorem retry_termination_amended (fs : List PFile) (ep rt L : String)
    (fb : Bool)
    (hfs : fs ≠ [])
    (hsent : isErrorLogSentinel fs = false)
    (hdet : (detect_errors L).1 = true) :
    (process_resurrection_stream (fun _ => GenOutcome.ok fs ep rt)
        (fun _ => L) fb).attempts = maxRetries + 1 ∧
    (process_resurrection_stream (fun _ => GenOutcome.ok fs ep rt)
        (fun _ => L) fb).errors.length = maxRetries + 1 ∧
    (process_resurrection_stream (fun _ => GenOutcome.ok fs ep rt)
        (fun _ => L) fb).retryCount = maxRetries ∧
    (process_resurrection_stream (fun _ => GenOutcome.ok fs ep rt)
        (fun _ => L) fb).status
      = (if fb || logsIndicateFallback L then "Fallback" else "Resurrected") := by
  obtain ⟨ty, ctx, hL⟩ : ∃ ty ctx, detect_errors L = (true, ty, ctx) := by
    rcases hE : detect_errors L with ⟨d, ty, ctx⟩
    rw [hE] at hdet
    simp only at hdet
    refine ⟨ty, ctx, ?_⟩
    rw [← hdet]
  have hLne : L ≠ "" := by
    intro h0
    rw [h0, detect_errors_of_empty] at hL
    simp at hL
  have e1 : loopGo (fun _ => GenOutcome.ok fs ep rt) (fun _ => L)
        (maxRetries + 2) initSt
      = loopGo (fun _ => GenOutcome.ok fs ep rt) (fun _ => L) 4
          (contentNextSt initSt fs ep rt L ty ctx) :=
    loopGo_content_step _ _ rfl initSt rfl hfs hsent hL (by decide)
  have e2 : loopGo (fun _ => GenOutcome.ok fs ep rt) (fun _ => L) 4
          (contentNextSt initSt fs ep rt L ty ctx)
      = loopGo (fun _ => GenOutcome.ok fs ep rt) (fun _ => L) 3
          (contentNextSt (contentNextSt initSt fs ep rt L ty ctx)
            fs ep rt L ty ctx) :=
    loopGo_content_step _ _ rfl _ rfl hfs hsent hL
      (by simp [contentNextSt, initSt, maxRetries])
  have e3 : loopGo (fun _ => GenOutcome.ok fs ep rt) (fun _ => L) 3
          (contentNextSt (contentNextSt initSt fs ep rt L ty ctx)
            fs ep rt L ty ctx)
      = loopGo (fun _ => GenOutcome.ok fs ep rt) (fun _ => L) 2
          (contentNextSt (contentNextSt (contentNextSt initSt fs ep rt L ty ctx)
            fs ep rt L ty ctx) fs ep rt L ty ctx) :=
    loopGo_content_step _ _ rfl _ rfl hfs hsent hL
      (by simp [contentNextSt, initSt, maxRetries])
  have e4 : loopGo (fun _ => GenOutcome.ok fs ep rt) (fun _ => L) 2
          (contentNextSt (contentNextSt (contentNextSt initSt fs ep rt L ty ctx)
            fs ep rt L ty ctx) fs ep rt L ty ctx)
      = contentBreakSt
          (contentNextSt (contentNextSt (contentNextSt initSt fs ep rt L ty ctx)
            fs ep rt L ty ctx) fs ep rt L ty ctx) fs ep rt L ty ctx :=
    loopGo_content_break _ _ rfl _ rfl hfs hsent hL
      (by simp [contentNextSt, initSt, maxRetries])
      (by simp [contentNextSt, initSt, maxRetries])
  have hrun : runLoop (fun _ => GenOutcome.ok fs ep rt) (fun _ => L)
      = contentBreakSt
          (contentNextSt (contentNextSt (contentNextSt initSt fs ep rt L ty ctx)
            fs ep rt L ty ctx) fs ep rt L ty ctx) fs ep rt L ty ctx := by
    unfold runLoop
    rw [e1, e2, e3, e4]
  refine ⟨?_, ?_, ?_, ?_⟩
  · simp only [process_resurrection_stream, hrun]
    simp [contentBreakSt, contentNextSt, initSt, maxRetries]
  · simp only [process_resurrection_stream, hrun]
    simp [contentBreakSt, contentNextSt, initSt, maxRetries]
  · simp only [process_resurrection_stream, hrun]
    simp [contentBreakSt, contentNextSt, initSt, maxRetries]
  · simp only [process_resurrection_stream, hrun]
    simp only [contentBreakSt, contentNextSt, initSt]
    simp only [determineStatus, logsIndicateFallback]
    have hdec : decide (L ≠ "") = true := by simp [hLne]
    simp only [hdec, Bool.true_and]
    by_cases hcond : (fb || (containsS L "Sandbox Error" ||
        containsS L "BUILD FAILED" || containsS L "FATAL ERROR")) = true
    · simp [hcond]
    · simp only [Bool.not_eq_true] at hcond
      simp [hcond]

/-- Collaborators for the C3 counterexample and witness: generation always
succeeds with one backend file; the sandbox always reports a Node crash
(`throw err;`), which the classifier detects, but which contains none of the
three status substrings. -/
def c3Gen : Nat → GenOutcome :=
  fun _ => .ok [⟨"backend/main.py", "x"⟩] "backend/main.py" "python"

/-- The constant sandbox log of the C3 scenario. -/
def c3Exec : Nat → String := fun _ => "throw err;"

/-- C3 counterexample — the run exhausts all `MAX_RETRIES + 1` attempts on the
same classified error, yet the terminal status is `"Resurrected"`, not
`"Fallback"` as the claim states, because the status test only looks for
three specific substrings in the final log text. -/
theorem retry_status_counterexample :
    (process_resurrection_stream c3Gen c3Exec false).errors.length
        = maxRetries + 1 ∧
    (process_resurrection_stream c3Gen c3Exec false).attempts
        = maxRetries + 1 ∧
    (process_resurrection_stream c3Gen c3Exec false).status = "Resurrected" ∧
    (process_resurrection_stream c3Gen c3Exec false).status ≠ "Fallback" := by
  refine ⟨by decide, by decide, by decide, by decide⟩

theorem retry_termination_amended_witness :
    ([⟨"backend/main.py", "x"⟩] : List PFile) ≠ [] ∧
    isErrorLogSentinel [⟨"backend/main.py", "x"⟩] = false ∧
    (detect_errors "throw err;").1 = true ∧
    ((process_resurrection_stream
        (fun _ => GenOutcome.ok [⟨"backend/main.py", "x"⟩]
          "backend/main.py" "python") (fun _ => "throw err;") false).attempts
        = maxRetries + 1 ∧
     (process_resurrection_stream
        (fun _ => GenOutcome.ok [⟨"backend/main.py", "x"⟩]
          "backend/main.py" "python") (fun _ => "throw err;") false).errors.length
        = maxRetries + 1 ∧
     (process_resurrection_stream
        (fun _ => GenOutcome.ok [⟨"backend/main.py", "x"⟩]
          "backend/main.py" "python") (fun _ => "throw err;") false).retryCount
        = maxRetries ∧
     (process_resurrection_stream
        (fun _ => GenOutcome.ok [⟨"backend/main.py", "x"⟩]
          "backend/main.py" "python") (fun _ => "throw err;") false).status
        = (if false || logsIndicateFallback "throw err;" then "Fallback"
           else "Resurrected")) :=
  ⟨by decide, by decide, by decide,
   retry_termination_amended [⟨"backend/main.py", "x"⟩] "backend/main.py"
     "python" "throw err;" false (by decide) (by decide) (by decide)⟩

/-- C8 — Backend-outage backoff: in any state with retries left, a
`GeminiAPIError` from generation records a `GEMINI_API_DOWN` attempt error,
sleeps `15 * (attempt number)` seconds, and increments the same `retry_count`
that bounds content-level failures; a content-level (classified sandbox
error) failure increments the very same counter and records no wait at all. -/
theorem backoff_shared_budget (gen₁ gen₂ : Nat → GenOutcome)
    (exec : Nat → String) (fuel : Nat) (s : LoopSt) (m : String)
    (fs : List PFile) (ep rt ty ctx : String)
    (hlt : s.retryCount < maxRetries)
    (hapi : gen₁ s.retryCount = .apiDown m)
    (hok : gen₂ s.retryCount = .ok fs ep rt)
    (hfs : fs ≠ []) (hsent : isErrorLogSentinel fs = false)
    (hdet : detect_errors (exec s.retryCount) = (true, ty, ctx)) :
    loopGo gen₁ exec (fuel + 1) s = loopGo gen₁ exec fuel (apiDownNextSt s m) ∧
    loopGo gen₂ exec (fuel + 1) s
      = loopGo gen₂ exec fuel
          (contentNextSt s fs ep rt (exec s.retryCount) ty ctx) ∧
    (apiDownNextSt s m).errors
      = s.errors ++ [AttemptError.mk (s.retryCount + 1) "GEMINI_API_DOWN" m] ∧
    (apiDownNextSt s m).waits = s.waits ++ [15 * (s.retryCount + 1)] ∧
    (apiDownNextSt s m).retryCount = s.retryCount + 1 ∧
    (contentNextSt s fs ep rt (exec s.retryCount) ty ctx).retryCount
      = s.retryCount + 1 ∧
    (contentNextSt s fs ep rt (exec s.retryCount) ty ctx).waits = s.waits :=
  ⟨loopGo_apiDown_step gen₁ exec rfl s hapi hlt,
   loopGo_content_step gen₂ exec rfl s hok hfs hsent hdet hlt,
   rfl, rfl, rfl, rfl, rfl⟩

/-- Collaborators for the C8 witness. -/
def c8Gen1 : Nat → GenOutcome := fun _ => .apiDown "api down"

/-- Successful generation for the C8 witness's content-failure half. -/
def c8Gen2 : Nat → GenOutcome := fun _ => .ok [⟨"a.py", "x"⟩] "a.py" "python"

/-- Sandbox log for the C8 witness (classified as NODE_CRASH). -/
def c8Exec : Nat → String := fun _ => "throw err;"

theorem backoff_shared_budget_witness :
    initSt.retryCount < maxRetries ∧
    (loopGo c8Gen1 c8Exec (1 + 1) initSt
        = loopGo c8Gen1 c8Exec 1 (apiDownNextSt initSt "api down") ∧
     loopGo c8Gen2 c8Exec (1 + 1) initSt
        = loopGo c8Gen2 c8Exec 1
            (contentNextSt initSt [⟨"a.py", "x"⟩] "a.py" "python"
              (c8Exec initSt.retryCount) "NODE_CRASH" "throw err;") ∧
     (apiDownNextSt initSt "api down").errors
        = initSt.errors ++
            [AttemptError.mk (initSt.retryCount + 1) "GEMINI_API_DOWN" "api down"] ∧
     (apiDownNextSt initSt "api down").waits
        = initSt.waits ++ [15 * (initSt.retryCount + 1)] ∧
     (apiDownNextSt initSt "api down").retryCount = initSt.retryCount + 1 ∧
     (contentNextSt initSt [⟨"a.py", "x"⟩] "a.py" "python"
        (c8Exec initSt.retryCount) "NODE_CRASH" "throw err;").retryCount
        = initSt.retryCount + 1 ∧
     (contentNextSt initSt [⟨"a.py", "x"⟩] "a.py" "python"
        (c8Exec initSt.retryCount) "NODE_CRASH" "throw err;").waits
        = initSt.waits) :=
  ⟨by decide,
   backoff_shared_budget c8Gen1 c8Gen2 c8Exec 1 initSt "api down"
     [⟨"a.py", "x"⟩] "a.py" "python" "NODE_CRASH" "throw err;"
     (by decide) rfl rfl (by decide) (by decide) (by decide)⟩

end Lazarus
